import Mathlib

/-!
# A verification development for `jira.go`

A shallow embedding of the command-line JIRA client `src/jira.go`.

* Go strings are embedded as Lean `String`s (sequences of Unicode characters,
  i.e. valid UTF-8 text); text algorithms are written over `List Char`.
* Where the bytes of an argument matter, as for the request body of `reassignIssue`,
  the function is embedded a second time over raw bytes (`Bytes`), and the text version
  is shown to be its restriction to valid UTF-8.
* Every handler is a function from its inputs and an explicit world `World`
  (credentials file, HTTP replies, file system, external library functions)
  to a trace of observable events plus the way the call ended.
-/

namespace Jira

/-! ## Text primitives (`strings`, `regexp`) -/

/-- Go `unicode.IsSpace`: the white space characters removed by `strings.TrimSpace`. -/
def isSpace (c : Char) : Bool :=
  c == '\t' || c == '\n' || c.toNat == 0x0B || c.toNat == 0x0C || c == '\r' || c == ' ' ||
  c.toNat == 0x85 || c.toNat == 0xA0 || c.toNat == 0x1680 ||
  (0x2000 ≤ c.toNat && c.toNat ≤ 0x200A) ||
  c.toNat == 0x2028 || c.toNat == 0x2029 || c.toNat == 0x202F || c.toNat == 0x205F ||
  c.toNat == 0x3000

/-- Go `strings.TrimSpace` on the characters of a string. -/
def trimSpaceChars (s : List Char) : List Char :=
  ((s.dropWhile isSpace).reverse.dropWhile isSpace).reverse

/-- Go `strings.TrimSpace`. -/
def trimSpace (s : String) : String := ⟨trimSpaceChars s.data⟩

/-- Go `strings.Split(s, sep)` for a one-character separator, on characters:
the pieces between the occurrences of `sep`; always at least one piece. -/
def splitChars (sep : Char) : List Char → List (List Char)
  | [] => [[]]
  | c :: cs =>
    if c = sep then [] :: splitChars sep cs
    else
      match splitChars sep cs with
      | [] => [[c]]
      | p :: ps => (c :: p) :: ps

/-- Go `strings.Split(s, sep)` for a one-character separator. -/
def split (s : String) (sep : Char) : List String :=
  (splitChars sep s.data).map String.mk

/-- Go `strings.Join`. -/
def join (parts : List String) (sep : String) : String :=
  sep.intercalate parts

/-- One position of a repetition-free regular expression: a set of characters. -/
abbrev CharClass := Char → Bool

/-- Does the sequence of character classes match a prefix of the text? -/
def matchesAt : List CharClass → List Char → Bool
  | [], _ => true
  | _ :: _, [] => false
  | p :: ps, c :: cs => p c && matchesAt ps cs

/-- Go `Regexp.ReplaceAll` for a pattern that is a non-empty sequence of character
classes `p :: ps`: scanning left to right, each leftmost match is replaced by `repl`
and the scan resumes right after the match; unmatched characters are copied.
`skip` counts the characters of the current match still to be passed over. -/
def replaceAllAux (p : CharClass) (ps : List CharClass) (repl : List Char) :
    Nat → List Char → List Char
  | _, [] => []
  | skip + 1, _ :: cs => replaceAllAux p ps repl skip cs
  | 0, c :: cs =>
    if matchesAt (p :: ps) (c :: cs) then repl ++ replaceAllAux p ps repl ps.length cs
    else c :: replaceAllAux p ps repl 0 cs

/-- The first position of the compiled pattern `@.`: the literal `@`. -/
def patAt : CharClass := fun c => c == '@'

/-- The second position of the compiled pattern `@.`: any character except newline. -/
def patDot : CharClass := fun c => c != '\n'

/-- The expression `pattern.ReplaceAll([]byte(s), []byte(""))` with
`pattern := regexp.MustCompile("@.")`, on characters. -/
def stripChars (s : List Char) : List Char :=
  replaceAllAux patAt [patDot] [] 0 s

/-- The plain-mode text of `smartPrintf` and `smartPrintln`: the markup pattern removed. -/
def stripMarkup (s : String) : String := ⟨stripChars s.data⟩

/-- Is there a position where the pattern `@.` matches, i.e. an `@` immediately
followed by a character other than newline? -/
def hasAtPair : List Char → Bool
  | [] => false
  | c :: cs => matchesAt [patAt, patDot] (c :: cs) || hasAtPair cs

/-! ## `fmt` -/

/-- An operand of `fmt.Printf` as used by the program. -/
inductive Arg where
  | str (s : String)
  | int (i : Int)
  | month (m : Nat)
  deriving DecidableEq, Repr

/-- Go `time.Month.String`. -/
def monthName (m : Nat) : String :=
  (["January", "February", "March", "April", "May", "June", "July", "August",
    "September", "October", "November", "December"].get? (m - 1)).getD
    ("%!Month(" ++ toString m ++ ")")

/-- The `type=value` rendering `fmt` uses in its error forms. -/
def Arg.describe : Arg → List Char
  | .str s => "string=".data ++ s.data
  | .int i => "int=".data ++ (toString i).data
  | .month m => "time.Month=".data ++ (toString m).data

/-- Padding of a rendered operand to a minimum width counted in characters:
on the right with spaces under the `-` flag, else on the left with `fill`. -/
def pad (minus : Bool) (fill : Char) (width : Nat) (s : List Char) : List Char :=
  if minus then s ++ List.replicate (width - s.length) ' '
  else List.replicate (width - s.length) fill ++ s

/-- A signed decimal under the flags of a directive; zero padding goes after the sign. -/
def formatInt (minus zero : Bool) (width : Nat) (i : Int) : List Char :=
  if zero && !minus then
    if i < 0 then '-' :: pad false '0' (width - 1) (toString i.natAbs).data
    else pad false '0' width (toString i.natAbs).data
  else pad minus ' ' width (toString i).data

/-- One directive of `fmt` applied to its operand (verbs `s`, `v`, `d`). -/
def formatArg (minus zero : Bool) (width : Nat) (verb : Char) (a : Arg) : List Char :=
  match a with
  | .str s =>
    if verb = 's' ∨ verb = 'v' then pad minus (if zero && !minus then '0' else ' ') width s.data
    else '%' :: '!' :: verb :: '(' :: (a.describe ++ [')'])
  | .int i =>
    if verb = 'd' ∨ verb = 'v' then formatInt minus zero width i
    else '%' :: '!' :: verb :: '(' :: (a.describe ++ [')'])
  | .month m =>
    if verb = 's' ∨ verb = 'v' then
      pad minus (if zero && !minus then '0' else ' ') width (monthName m).data
    else if verb = 'd' then formatInt minus zero width m
    else '%' :: '!' :: verb :: '(' :: (a.describe ++ [')'])

/-- The tail `fmt` appends when operands are left over. -/
def extraArgs : List Arg → List Char
  | [] => []
  | a :: as =>
    "%!(EXTRA ".data ++ a.describe ++ (as.map fun b => ", ".data ++ b.describe).flatten ++ [')']

/-- Where the scan of a format string stands: in literal text, or inside a
directive after `%` with the flags and width read so far. -/
inductive FmtState where
  | text
  | directive (minus zero : Bool) (width : Option Nat)

/-- Go `fmt.Sprintf` on characters, for the directives the program uses:
flags `-` and `0`, a decimal width, the verbs `s`, `v`, `d`, and `%%`. -/
def sprintfAux : FmtState → List Char → List Arg → List Char
  | .text, [], args => extraArgs args
  | .text, c :: cs, args =>
    if c = '%' then sprintfAux (.directive false false none) cs args
    else c :: sprintfAux .text cs args
  | .directive _ _ _, [], args => "%!(NOVERB)".data ++ extraArgs args
  | .directive minus zero width, c :: cs, args =>
    if width = none ∧ c = '-' then sprintfAux (.directive true false none) cs args
    else if width = none ∧ c = '0' then sprintfAux (.directive minus (!minus) none) cs args
    else if c.isDigit then
      sprintfAux (.directive minus zero (some (width.getD 0 * 10 + (c.toNat - '0'.toNat)))) cs args
    else if c = '%' then '%' :: sprintfAux .text cs args
    else
      match args with
      | [] => '%' :: '!' :: c :: "(MISSING)".data ++ sprintfAux .text cs []
      | a :: as => formatArg minus zero (width.getD 0) c a ++ sprintfAux .text cs as

/-- Go `fmt.Sprintf`. -/
def sprintf (format : String) (args : List Arg) : String :=
  ⟨sprintfAux .text format.data args⟩

/-! ## Data model -/

structure JiraUser where
  Name : String
  DisplayName : String
  deriving DecidableEq, Repr

structure JiraIssueStatus where
  Name : String
  deriving DecidableEq, Repr

structure JiraAttachment where
  Id : String
  Content : String
  deriving DecidableEq, Repr

structure JiraComment where
  Id : String
  Author : JiraUser
  Body : String
  Created : String
  deriving DecidableEq, Repr

structure JiraCommentColl where
  Comments : List JiraComment
  deriving DecidableEq, Repr

/-- The fields of an issue; the pointer-typed fields of the source are `Option`s
(`none` is the nil pointer). -/
structure JiraIssueFields where
  Summary : String
  Description : Option String
  Labels : Option (List String)
  ResolutionComment : Option String
  Status : JiraIssueStatus
  Comment : JiraCommentColl
  Attachment : List JiraAttachment
  Reporter : Option JiraUser
  Assignee : Option JiraUser
  deriving DecidableEq, Repr

structure JiraIssue where
  Id : String
  Key : String
  Fields : JiraIssueFields
  deriving DecidableEq, Repr

/-- A page of search results; `Issues` is `none` for the nil slice. -/
structure JiraResults where
  StartAt : Int
  MaxResults : Int
  Total : Int
  Issues : Option (List JiraIssue)
  deriving DecidableEq, Repr

/-! ## Effects -/

/-- What a run does that can be seen from outside. -/
inductive Event where
  | stdout (text : String)
  | httpDo (method url : String) (payload : Option String) (headers : List (String × String))
  | fileCreate (name : String)
  | fileWrite (name : String) (data : String)
  | startCommand (name : String) (arg : String)
  /-- Bytes written to standard output that need not be valid UTF-8. -/
  | stdoutBytes (text : List (Fin 256))
  /-- An HTTP round trip whose URL and body are given as bytes. -/
  | httpDoBytes (method : String) (url payload : List (Fin 256))
      (headers : List (String × String))
  deriving DecidableEq, Repr

/-- The ways a call ends other than by returning. -/
inductive Stop where
  | exit (code : Nat)
  | panic (msg : String)
  deriving DecidableEq, Repr

/-- A finished computation: the events it produced, and either its value or the
reason it stopped. -/
structure Run (α : Type) where
  trace : List Event
  result : Except Stop α

/-- Sequencing: a stopped computation stays stopped, else the traces are appended. -/
def Run.bind {α β : Type} (m : Run α) (f : α → Run β) : Run β :=
  match m.result with
  | .error e => ⟨m.trace, .error e⟩
  | .ok a => ⟨m.trace ++ (f a).trace, (f a).result⟩

instance : Monad Run where
  pure a := ⟨[], .ok a⟩
  bind := Run.bind

/-- Produce one event. -/
def emit (e : Event) : Run Unit := ⟨[e], .ok ()⟩

/-- Go `os.Exit`. -/
def osExit {α : Type} (code : Nat) : Run α := ⟨[], .error (.exit code)⟩

/-- A Go run-time panic. -/
def goPanic {α : Type} (msg : String) : Run α := ⟨[], .error (.panic msg)⟩

/-- Go `fmt.Println` of one string operand (an error is printed by its message). -/
def println (s : String) : Run Unit := emit (.stdout (s ++ "\n"))

/-- Go `fmt.Printf`. -/
def printf (format : String) (args : List Arg) : Run Unit :=
  emit (.stdout (sprintf format args))

/-- Go slice indexing `xs[i]`, which panics out of range. -/
def index {α : Type} (xs : List α) (i : Nat) : Run α :=
  match xs.get? i with
  | some x => pure x
  | none =>
    goPanic ("runtime error: index out of range [" ++ toString i ++ "] with length " ++
      toString xs.length)

/-- The answer of the server to one HTTP round trip (`client.Do` followed, for a GET
with status 200, by `ioutil.ReadAll` of the body). -/
inductive HttpReply where
  | failed (err : String)
  | response (statusCode : Nat) (status : String) (body : String) (readErr : Option String)

/-- A parsed time stamp, as far as the program reads it. -/
structure Time where
  Day : Nat
  Month : Nat
  Year : Int
  Hour : Nat
  Minute : Nat

/-- Everything outside the program: the process environment, the file system, the
network, the operating system, and the library functions the program calls whose
results it only passes on. -/
structure World where
  /-- The value of `$HOME`. -/
  home : String
  /-- Result of `os.Open` and `ioutil.ReadAll` on a path: `none` when the file cannot be
  opened, else the bytes read and the error of the read. -/
  readFile : String → Option (String × Option String)
  /-- The error of `http.NewRequest(method, url, body)`, if any. -/
  newRequest : String → String → Option String
  /-- The round trip `client.Do(req)`. -/
  roundTrip : String → String → Option String → List (String × String) → HttpReply
  /-- The error of `os.Create(name)`, if any. -/
  createErr : String → Option String
  /-- The constant `runtime.GOOS`. -/
  goos : String
  /-- The error of `exec.Command(name, arg).Start()`, if any. -/
  startErr : String → String → Option String
  /-- The outcome of `json.Unmarshal(body, &issue)`: the record as left by the decoder and its error. -/
  unmarshalIssue : String → JiraIssue × Option String
  /-- The outcome of `json.Unmarshal(body, &results)`. -/
  unmarshalResults : String → JiraResults × Option String
  /-- Library `url.QueryEscape`. -/
  queryEscape : String → String
  /-- Library `base64.StdEncoding.EncodeToString`. -/
  base64 : String → String
  /-- Library `strings.ToUpper`. -/
  toUpper : String → String
  /-- The text `color.Printf` writes. -/
  colorPrintf : String → List Arg → String
  /-- The text `color.Println` writes. -/
  colorPrintln : String → String
  /-- Library `time.Parse` with the layout `2006-01-02T15:04:05`. -/
  parseTime : String → Except String Time

/-! ## JSON encoding (`encoding/json`) -/

/-- The sixteen hexadecimal digits used by the encoder. -/
def hexDigit (n : Nat) : Char :=
  "0123456789abcdef".data.getD n '0'

/-- The encoding of one character inside a JSON string literal, as `json.Marshal`
writes it for text that is valid UTF-8: quote and backslash are escaped with a backslash,
backspace, form feed, newline, carriage return and tab by their letter, the other control
characters, `<`, `>`, `&` and the two line separators U+2028 and U+2029 as `\u` and four
hexadecimal digits, the rest verbatim. -/
def quoteChar (c : Char) : List Char :=
  if c = '"' ∨ c = '\\' then ['\\', c]
  else if c.toNat = 8 then ['\\', 'b']
  else if c.toNat = 12 then ['\\', 'f']
  else if c = '\n' then ['\\', 'n']
  else if c = '\r' then ['\\', 'r']
  else if c = '\t' then ['\\', 't']
  else if c.toNat < 0x20 ∨ c = '<' ∨ c = '>' ∨ c = '&' then
    ['\\', 'u', '0', '0', hexDigit (c.toNat / 16), hexDigit (c.toNat % 16)]
  else if c.toNat = 0x2028 ∨ c.toNat = 0x2029 then
    ['\\', 'u', '2', '0', '2', hexDigit (c.toNat % 16)]
  else [c]

/-- A JSON string literal for a Go string. -/
def quote (s : String) : String :=
  ⟨'"' :: (s.data.map quoteChar).flatten ++ ['"']⟩

/-- The marshalling of a `*string`: `null` for the nil pointer, else the string literal. -/
def marshalPtr : Option String → String
  | none => "null"
  | some s => quote s

/-- The expression `json.Marshal(map[string]*string\x7bkey: value\x7d)` for a map with one
entry. Marshalling a map of this type has no failure case, so there is no error value. -/
def marshalPtrMap (key : String) (value : Option String) : String :=
  "\x7b" ++ quote key ++ ":" ++ marshalPtr value ++ "\x7d"

/-- The expression `json.Marshal(map[string]string\x7bkey: value\x7d)` for a map with one entry. -/
def marshalMap (key : String) (value : String) : String :=
  "\x7b" ++ quote key ++ ":" ++ quote value ++ "\x7d"

/-! ## The program -/

def browseBaseUrl : String := "https://bits.bazaarvoice.com/jira/browse"
def baseUrl : String := "https://bits.bazaarvoice.com/jira/rest/api/2"
def assignedSearchQuery : String := "assignee = currentUser() ORDER BY status ASC, key DESC"
def watchedSearchQuery : String :=
  "issue in watchedIssues() AND status != Closed ORDER BY status ASC, key DESC"

/-- The source function `smartPrintf`; `useColor` is the global flag at the time of the call. -/
def smartPrintf (w : World) (useColor : Bool) (format : String) (a : List Arg) : Run Unit :=
  if useColor then emit (.stdout (w.colorPrintf format a))
  else
    let rawFormat := stripMarkup format
    printf rawFormat a

/-- The source function `smartPrintln`. -/
def smartPrintln (w : World) (useColor : Bool) (str : String) : Run Unit :=
  if useColor then emit (.stdout (w.colorPrintln str))
  else
    let rawStr := stripMarkup str
    println rawStr

/-- The source function `openBrowser`; its result is the error. -/
def openBrowser (w : World) (url : String) : Run (Option String) :=
  if w.goos = "linux" then do
    emit (.startCommand "xdg-open" url)
    pure (w.startErr "xdg-open" url)
  else if w.goos = "darwin" then do
    emit (.startCommand "open" url)
    pure (w.startErr "open" url)
  else pure (some "unsupported platform")

/-- The source function `loadCredentials`; the third component is the returned error. -/
def loadCredentials (w : World) : Run (String × String × Option String) :=
  match w.readFile (w.home ++ "/.jirarc") with
  | none => do
    println "Missing JIRA credentials in ~/.jirarc"
    osExit 1
  | some (rawContent, err) => do
    let content := trimSpace rawContent
    let credentials := split content ':'
    let username ← index credentials 0
    let passwd ← index credentials 1
    pure (username, passwd, err)

/-- The source function `encodeAuth`. -/
def encodeAuth (w : World) (username passwd : String) : String :=
  let unencoded := username ++ ":" ++ passwd
  w.base64 unencoded

/-- The source function `makeGetRequest`: the body (`none` for the nil slice) and the error. -/
def makeGetRequest (w : World) (url : String) : Run (Option String × Option String) := do
  let (username, passwd, err) ← loadCredentials w
  match err with
  | some e => pure (none, some e)
  | none =>
    match w.newRequest "GET" url with
    | some e => pure (none, some e)
    | none => do
      let encoded := encodeAuth w username passwd
      let headers := [("Authorization", "Basic " ++ encoded)]
      emit (.httpDo "GET" url none headers)
      match w.roundTrip "GET" url none headers with
      | .failed e => pure (none, some e)
      | .response statusCode status body readErr =>
        if statusCode ≠ 200 then do
          println url
          println status
          pure (none, none)
        else pure (some body, readErr)

/-- The source function `makeRequest`: the status code (0 when none was received) and the error. -/
def makeRequest (w : World) (method url payload : String) : Run (Nat × Option String) := do
  let (username, passwd, err) ← loadCredentials w
  match err with
  | some e => pure (0, some e)
  | none =>
    match w.newRequest method url with
    | some e => pure (0, some e)
    | none => do
      let encoded := encodeAuth w username passwd
      let headers :=
        [("Authorization", "Basic " ++ encoded), ("Content-Type", "application/json")]
      emit (.httpDo method url (some payload) headers)
      match w.roundTrip method url (some payload) headers with
      | .failed e => pure (0, some e)
      | .response statusCode _ _ _ => pure (statusCode, none)

/-- The source function `makeSearchUrl`. -/
def makeSearchUrl (w : World) (query : String) : String :=
  let encQuery := w.queryEscape query
  baseUrl ++ "/search?jql=" ++ encQuery

/-- The `for ... range` loop of `displayResults`. -/
def displayResultsLoop (w : World) (useColor : Bool) : List JiraIssue → Run Unit
  | [] => pure ()
  | issue :: rest => do
    smartPrintf w useColor "@c%10s\t@b%12s\t@|%s\n"
      [.str issue.Key, .str issue.Fields.Status.Name, .str issue.Fields.Summary]
    displayResultsLoop w useColor rest

/-- The source function `displayResults`. -/
def displayResults (w : World) (useColor : Bool) (body : String) : Run Unit :=
  match w.unmarshalResults body with
  | (_, some err) => println err
  | (results, none) =>
    match results.Issues with
    | none => println "No results"
    | some issues => displayResultsLoop w useColor issues

/-- The `for ... range` loop of `displayComments`; it ends the function at the first
time stamp that does not parse. -/
def displayCommentsLoop (w : World) (useColor : Bool) : List JiraComment → Run Unit
  | [] => pure ()
  | comment :: rest => do
    let parts := split comment.Created '.'
    let part0 ← index parts 0
    match w.parseTime part0 with
    | .error err => println err
    | .ok timestamp => do
      smartPrintf w useColor "@b%v %v %v %02v:%02v@|\n"
        [.int timestamp.Day, .month timestamp.Month, .int timestamp.Year,
         .int timestamp.Hour, .int timestamp.Minute]
      smartPrintf w useColor "@gAuthor: @|%s @r<%s>@|\n"
        [.str comment.Author.DisplayName, .str comment.Author.Name]
      smartPrintf w useColor "%s\n\n" [.str comment.Body]
      displayCommentsLoop w useColor rest

/-- The source function `displayComments`. -/
def displayComments (w : World) (useColor : Bool) (body : String) : Run Unit :=
  match w.unmarshalIssue body with
  | (_, some err) => println err
  | (issue, none) => do
    smartPrintf w useColor "@c%s @|- @y%s@| - @b%s@|\n"
      [.str issue.Key, .str issue.Fields.Summary, .str issue.Fields.Status.Name]
    if issue.Fields.Comment.Comments.length = 0 then println "No comments"
    else displayCommentsLoop w useColor issue.Fields.Comment.Comments

/-- The source function `openTicket`. The local `err` is declared and never assigned
(the result of `openBrowser` is dropped), so nothing is printed after the call. -/
def openTicket (w : World) (_useColor : Bool) (args : List String) : Run Unit :=
  if args.length ≠ 1 then println "Need ticket number to open"
  else do
    let arg0 ← index args 0
    let url := browseBaseUrl ++ "/" ++ arg0
    let _ ← openBrowser w url
    pure ()

/-- The source function `ticketLink`. -/
def ticketLink (_w : World) (_useColor : Bool) (args : List String) : Run Unit :=
  if args.length ≠ 1 then println "Need a ticket number"
  else do
    let arg0 ← index args 0
    println (browseBaseUrl ++ "/" ++ arg0)

/-- The source function `reassignIssue`. -/
def reassignIssue (w : World) (_useColor : Bool) (args : List String) : Run Unit :=
  if args.length < 1 then println "Need a ticket number and ldap name"
  else do
    let arg0 ← index args 0
    let url := baseUrl ++ "/issue/" ++ arg0 ++ "/assignee"
    let assignee : Option String ←
      if args.length = 2 then do
        let arg1 ← index args 1
        pure (some arg1)
      else pure none
    let rawPayload := marshalPtrMap "name" assignee
    let (status, err) ← makeRequest w "PUT" url rawPayload
    match err with
    | some e => println e
    | none =>
      if status ≠ 204 then println (toString status)
      else
        match assignee with
        | some a => printf "Reassigned %s to %s\n" [.str (w.toUpper arg0), .str a]
        | none => printf "Unassigned %s\n" [.str (w.toUpper arg0)]

/-- The source function `listWatched`. -/
def listWatched (w : World) (useColor : Bool) (_args : List String) : Run Unit := do
  let url := makeSearchUrl w watchedSearchQuery
  let (body, err) ← makeGetRequest w url
  match err with
  | some e => println e
  | none => do
    smartPrintln w useColor "@yWatched Issues@|"
    displayResults w useColor (body.getD "")

/-- The source function `showComments`. -/
def showComments (w : World) (useColor : Bool) (args : List String) : Run Unit :=
  if args.length ≠ 1 then println "Need a ticket number to display comments for"
  else do
    let arg0 ← index args 0
    let url := baseUrl ++ "/issue/" ++ arg0
    let (body, err) ← makeGetRequest w url
    match err with
    | some e => println e
    | none => displayComments w useColor (body.getD "")

/-- The source function `addComment`. -/
def addComment (w : World) (_useColor : Bool) (args : List String) : Run Unit :=
  if args.length ≠ 2 then println "Need a ticket number and a comment message to add"
  else do
    let arg0 ← index args 0
    let url := baseUrl ++ "/issue/" ++ arg0 ++ "/comment"
    let arg1 ← index args 1
    let rawPayload := marshalMap "body" arg1
    let (status, err) ← makeRequest w "POST" url rawPayload
    match err with
    | some e => println e
    | none =>
      if status ≠ 201 then println (toString status)
      else printf "Comment added to %s\n" [.str (w.toUpper arg0)]

/-- The loop over the attachments at the end of `showDesc`: the last piece of the
content URL after splitting at `/`. -/
def showDescLoop : List JiraAttachment → Run Unit
  | [] => pure ()
  | attachment :: rest => do
    let url := attachment.Content
    let parts := split url '/'
    let baseName ← index parts (parts.length - 1)
    println baseName
    showDescLoop rest

/-- The part of `showDesc` after the issue is decoded (source lines 254 to 287). -/
def showDescIssue (w : World) (useColor : Bool) (issue : JiraIssue) : Run Unit := do
  smartPrintf w useColor "@c%s @|- @y%s@| - @b%s@|\n"
    [.str issue.Key, .str issue.Fields.Summary, .str issue.Fields.Status.Name]
  match issue.Fields.Reporter with
  | none => goPanic "runtime error: invalid memory address or nil pointer dereference"
  | some reporter => do
    smartPrintf w useColor "@mReporter@|: %s @r<%s>@|\n"
      [.str reporter.DisplayName, .str reporter.Name]
    match issue.Fields.Assignee with
    | some assignee =>
      smartPrintf w useColor "@gAssignee@|: %s @r<%s>@|\n"
        [.str assignee.DisplayName, .str assignee.Name]
    | none => smartPrintln w useColor "@gAssignee@|: @rUnassigned@|"
    match issue.Fields.Labels with
    | some labels => smartPrintf w useColor "@cLabels@|: %s\n" [.str (join labels ", ")]
    | none => pure ()
    match issue.Fields.Description with
    | none => println "No description"
    | some description => do
      smartPrintln w useColor "\n@yDescription@|"
      println description
      match issue.Fields.ResolutionComment with
      | some comment => do
        smartPrintln w useColor "\n@yResolution@|"
        println comment
      | none => pure ()
      if issue.Fields.Attachment.length ≠ 0 then do
        smartPrintln w useColor "\n@yAttachments@|"
        showDescLoop issue.Fields.Attachment
      else pure ()

/-- The source function `showDesc`. -/
def showDesc (w : World) (useColor : Bool) (args : List String) : Run Unit :=
  if args.length ≠ 1 then println "Need a ticket number to display description"
  else do
    let arg0 ← index args 0
    let url := baseUrl ++ "/issue/" ++ arg0
    let (body, err) ← makeGetRequest w url
    match err with
    | some e => println e
    | none =>
      match w.unmarshalIssue (body.getD "") with
      | (_, some e) => do
        println "Error unmarshaling json"
        println e
      | (issue, none) => showDescIssue w useColor issue

/-- The `for ... range` loop of `downloadAttachments`. The result of `file.Write` is
dropped by the source; the deferred `file.Close` calls only release the handles when
the function returns. -/
def downloadLoop (w : World) : List JiraAttachment → Run Unit
  | [] => pure ()
  | attachment :: rest => do
    let url := attachment.Content
    let parts := split url '/'
    let baseName ← index parts (parts.length - 1)
    println baseName
    let (body, err) ← makeGetRequest w url
    match err with
    | some e => println e
    | none =>
      match w.createErr baseName with
      | some e => println e
      | none => do
        emit (.fileCreate baseName)
        emit (.fileWrite baseName (body.getD ""))
        downloadLoop w rest

/-- The source function `downloadAttachments`. After a decoding error is printed the
function goes on with the record as the decoder left it. -/
def downloadAttachments (w : World) (useColor : Bool) (args : List String) : Run Unit :=
  if args.length ≠ 1 then println "Need a ticket number to fetch attachments"
  else do
    let arg0 ← index args 0
    let url := baseUrl ++ "/issue/" ++ arg0
    let (body, err) ← makeGetRequest w url
    match err with
    | some e => println e
    | none => do
      let (issue, err) := w.unmarshalIssue (body.getD "")
      match err with
      | some e => println e
      | none => pure ()
      if issue.Fields.Attachment.length = 0 then println "No attachments"
      else do
        smartPrintln w useColor "@yDownloading attachments...@|"
        downloadLoop w issue.Fields.Attachment

/-- The source function `listAssigned`. -/
def listAssigned (w : World) (useColor : Bool) : Run Unit := do
  let searchUrl := makeSearchUrl w assignedSearchQuery
  let (body, err) ← makeGetRequest w searchUrl
  match err with
  | some e => println e
  | none => do
    smartPrintln w useColor "@yAssigned Issues@|"
    displayResults w useColor (body.getD "")

/-- The source type `Action`; a handler reads the world and the colour flag. -/
structure Action where
  ActionFunc : World → Bool → List String → Run Unit
  Desc : String

/-- The source table `actionMap`, as the list of its entries. -/
def actionMap : List (String × Action) :=
  [("watched", ⟨listWatched, "list watched tickets"⟩),
   ("comments", ⟨showComments, "show comments for a ticket"⟩),
   ("add-comment", ⟨addComment, "add a comment to a ticket"⟩),
   ("desc", ⟨showDesc, "show the description of a ticket"⟩),
   ("assign", ⟨reassignIssue,
      "reassign a ticket to another user or unassign if no user is specified"⟩),
   ("attachments", ⟨downloadAttachments,
      "download a tickets attachments to the current directory"⟩),
   ("link", ⟨ticketLink, "print a link to a ticket"⟩),
   ("open", ⟨openTicket, "open a ticket in the browser"⟩)]

/-- The loop of the `help` command. Go leaves the order of `range` over a map open;
the order of the table is used here. -/
def helpLoop : List (String × Action) → Run Unit
  | [] => pure ()
  | (cmd, action) :: rest => do
    printf "%-12s\t%s\n" [.str cmd, .str action.Desc]
    helpLoop rest

/-- The source function `main`; `osArgs` is `os.Args`, the program name first. -/
def main (w : World) (osArgs : List String) : Run Unit :=
  let useColor := true
  if osArgs.length ≥ 2 then do
    let arg1 ← index osArgs 1
    if arg1 = "help" then do
      println "The following commands are availible\n"
      helpLoop actionMap
    else
      match actionMap.lookup arg1 with
      | some action => action.ActionFunc w useColor (osArgs.drop 2)
      | none => showDesc w useColor (osArgs.drop 1)
  else listAssigned w useColor

/-! ## Definitions used to state the properties -/

/-- The second character of a markup token in the words of the specification:
a letter, or `|` for the reset token. -/
def isMarkupChar : CharClass := fun c => c.isAlpha || c == '|'

/-- Stripping as the specification words it: exactly the two-character markup tokens
(`@` and a letter, or `@|`) are removed, scanning left to right. -/
def specStripChars (s : List Char) : List Char :=
  replaceAllAux patAt [isMarkupChar] [] 0 s

/-- Stripping as the specification words it, on strings. -/
def specStripMarkup (s : String) : String := ⟨specStripChars s.data⟩

/-- Removal of every pair of an `@` and a following character other than newline,
read left to right without overlap; every other character is kept in place. -/
def dropAtPairs : List Char → List Char
  | [] => []
  | [c] => [c]
  | c :: d :: cs => if c = '@' ∧ d ≠ '\n' then dropAtPairs cs else c :: dropAtPairs (d :: cs)

/-- Every `@` of the text that is followed by a character other than newline is
followed by a letter or `|`, i.e. starts a markup token. -/
def onlyMarkup : List Char → Bool
  | [] => true
  | c :: cs =>
    (!matchesAt [patAt, patDot] (c :: cs) || matchesAt [patAt, isMarkupChar] (c :: cs)) &&
      onlyMarkup cs

/-- A record with every field empty, as the decoder starts from. -/
def emptyIssue : JiraIssue :=
  ⟨"", "", ⟨"", none, none, none, ⟨""⟩, ⟨[]⟩, [], none, none⟩⟩

/-- A sample world: the credentials file holds `alice:secret`, every GET is answered
with status 200 and every other request with status 204, nothing decodes. The library
functions are stand-ins that pass their input on. -/
def demoWorld : World where
  home := "/home/alice"
  readFile := fun path =>
    if path = "/home/alice/.jirarc" then some ("alice:secret\n", none) else none
  newRequest := fun _ _ => none
  roundTrip := fun method _ _ _ =>
    if method = "GET" then .response 200 "200 OK" "" none
    else .response 204 "204 No Content" "" none
  createErr := fun _ => none
  goos := "linux"
  startErr := fun _ _ => none
  unmarshalIssue := fun _ => (emptyIssue, some "unexpected end of JSON input")
  unmarshalResults := fun _ => (⟨0, 0, 0, none⟩, some "unexpected end of JSON input")
  queryEscape := id
  base64 := id
  toUpper := id
  colorPrintf := sprintf
  colorPrintln := fun s => s ++ "\n"
  parseTime := fun _ => .error "parsing time"

/-- The value a run returned, if it returned. -/
def Run.value {α : Type} (r : Run α) : Option α :=
  match r.result with
  | .ok a => some a
  | .error _ => none

/-- The reason a run stopped, if it did not return. -/
def Run.stopped {α : Type} (r : Run α) : Option Stop :=
  match r.result with
  | .ok _ => none
  | .error e => some e

/-- The body of the request, for an HTTP round trip that carries one. -/
def Event.payload? : Event → Option String
  | .httpDo _ _ payload _ => payload
  | _ => none

/-- The sample world with the given bytes in the credentials file. -/
def rcWorld (raw : String) : World :=
  { demoWorld with
    readFile := fun path => if path = "/home/alice/.jirarc" then some (raw, none) else none }

/-- The sample world in which every issue response decodes to the given issue. -/
def issueWorld (issue : JiraIssue) : World :=
  { demoWorld with unmarshalIssue := fun _ => (issue, none) }

/-- An issue as the tracker sends it when the reporter is null: no reporter, no assignee. -/
def unreportedIssue : JiraIssue :=
  ⟨"10001", "ABC-1",
    ⟨"Printer on fire", some "It burns.", none, none, ⟨"Open"⟩, ⟨[]⟩, [], none, none⟩⟩

/-- An issue with a reporter and no description that has a resolution comment and one
attachment. -/
def undescribedIssue : JiraIssue :=
  ⟨"10002", "ABC-2",
    ⟨"Printer out of paper", none, none, some "Refilled.", ⟨"Closed"⟩, ⟨[]⟩,
      [⟨"7", "https://bits.bazaarvoice.com/jira/secure/attachment/7/tray.png"⟩],
      some ⟨"bob", "Bob B"⟩, none⟩⟩

/-- The same issue with a description. -/
def describedIssue : JiraIssue :=
  { undescribedIssue with
    Fields := { undescribedIssue.Fields with Description := some "Tray 2 is empty." } }

/-- An issue with two attachments. -/
def twoAttachmentsIssue : JiraIssue :=
  ⟨"10003", "ABC-3",
    ⟨"Logs", some "See files.", none, none, ⟨"Open"⟩, ⟨[]⟩,
      [⟨"1", "https://host/att/1/a.txt"⟩, ⟨"2", "https://host/att/2/b.txt"⟩],
      some ⟨"bob", "Bob B"⟩, none⟩⟩

/-- A world in which the issue has two attachments and the content of the first one is
answered with status 404; every other GET is answered with status 200 and a body. -/
def downloadWorld : World :=
  { issueWorld twoAttachmentsIssue with
    roundTrip := fun _ url _ _ =>
      if url = "https://host/att/1/a.txt" then .response 404 "404 Not Found" "" none
      else .response 200 "200 OK" "data" none }

/-- A page of two issues. -/
def twoIssuesPage : JiraResults :=
  ⟨0, 50, 2, some
    [⟨"1", "AB-1", ⟨"First", none, none, none, ⟨"Open"⟩, ⟨[]⟩, [], none, none⟩⟩,
     ⟨"2", "AB-2", ⟨"Second", none, none, none, ⟨"Closed"⟩, ⟨[]⟩, [], none, none⟩⟩]⟩

/-- The sample world in which every search response decodes to the page of two issues. -/
def resultsWorld : World :=
  { demoWorld with unmarshalResults := fun _ => (twoIssuesPage, none) }

/-- One output line of the list renderer in the words of the specification:
key, TAB, status, TAB, summary. -/
def specResultLine (issue : JiraIssue) : String :=
  issue.Key ++ "\t" ++ issue.Fields.Status.Name ++ "\t" ++ issue.Fields.Summary ++ "\n"

/-- One output line of the list renderer: the key right-aligned in ten columns, TAB, the
status right-aligned in twelve columns, TAB, the summary. -/
def resultLine (issue : JiraIssue) : String :=
  ⟨pad false ' ' 10 issue.Key.data ++ '\t' ::
    (pad false ' ' 12 issue.Fields.Status.Name.data ++ '\t' ::
      (issue.Fields.Summary.data ++ ['\n']))⟩

/-! ### Reading JSON back

The reader below is not part of the program: it states what a request body denotes. -/

/-- The value of a hexadecimal digit. -/
def hexValue (c : Char) : Option Nat :=
  if '0' ≤ c ∧ c ≤ '9' then some (c.toNat - '0'.toNat)
  else if 'a' ≤ c ∧ c ≤ 'f' then some (c.toNat - 'a'.toNat + 10)
  else if 'A' ≤ c ∧ c ≤ 'F' then some (c.toNat - 'A'.toNat + 10)
  else none

/-- The character a one-letter JSON escape stands for. -/
def unescape (c : Char) : Option Char :=
  if c = '"' ∨ c = '\\' ∨ c = '/' then some c
  else if c = 'n' then some '\n'
  else if c = 'r' then some '\r'
  else if c = 't' then some '\t'
  else if c = 'b' then some (Char.ofNat 8)
  else if c = 'f' then some (Char.ofNat 12)
  else none

/-- Where the reader of a JSON string literal stands. -/
inductive ReadState where
  | plain
  | escape
  | hex (left : Nat) (acc : Nat)

/-- Can a request with this method and URL be handed to the network: the credentials
load without error and `http.NewRequest` accepts the method and the URL. -/
def reachesServer (w : World) (method url : String) : Bool :=
  match (loadCredentials w).value with
  | some (_, _, none) => (w.newRequest method url).isNone
  | _ => false

/-- The request bodies a run sent, in order. -/
def Run.sentBodies {α : Type} (r : Run α) : List String :=
  r.trace.filterMap Event.payload?


/-! ## Raw bytes

A Go string is a sequence of bytes that need not be valid UTF-8. The definitions of
this section follow the bytes of the arguments of `reassignIssue` into the request body. -/

/-- One byte. -/
abbrev Byte := Fin 256

/-- A Go string as its bytes. -/
abbrev Bytes := List Byte

/-- The byte of an ASCII character. -/
def ch (c : Char) : Byte := Fin.ofNat c.toNat

/-- The UTF-8 encoding of a code point. -/
def utf8Code (n : Nat) : Bytes :=
  if n < 0x80 then [Fin.ofNat n]
  else if n < 0x800 then [Fin.ofNat (0xC0 + n / 64), Fin.ofNat (0x80 + n % 64)]
  else if n < 0x10000 then
    [Fin.ofNat (0xE0 + n / 4096), Fin.ofNat (0x80 + n / 64 % 64), Fin.ofNat (0x80 + n % 64)]
  else
    [Fin.ofNat (0xF0 + n / 262144), Fin.ofNat (0x80 + n / 4096 % 64),
      Fin.ofNat (0x80 + n / 64 % 64), Fin.ofNat (0x80 + n % 64)]

/-- The bytes of a text: its UTF-8 encoding. -/
def utf8 (s : String) : Bytes :=
  (s.data.map fun c => utf8Code c.toNat).flatten

/-- Go `utf8.RuneError`, the replacement character U+FFFD. -/
def runeError : Nat := 0xFFFD

/-- The length of the encoding that a first byte from `0xC2` to `0xF4` announces (the
low bits of Go's table `first`). -/
def seqSize (b0 : Nat) : Nat :=
  if b0 < 0xE0 then 2 else if b0 < 0xF0 then 3 else 4

/-- The least second byte accepted after the first byte (Go's table `acceptRanges`). -/
def acceptLo (b0 : Nat) : Nat :=
  if b0 = 0xE0 then 0xA0 else if b0 = 0xF0 then 0x90 else 0x80

/-- The greatest second byte accepted after the first byte (Go's table `acceptRanges`). -/
def acceptHi (b0 : Nat) : Nat :=
  if b0 = 0xED then 0x9F else if b0 = 0xF4 then 0x8F else 0xBF

/-- Go `utf8.DecodeRuneInString`: the first code point of the bytes and the number of
bytes of its encoding; `(runeError, 1)` when the bytes do not start with a valid encoding
and `(runeError, 0)` when there are none. -/
def decodeRune (s : Bytes) : Nat × Nat :=
  match s with
  | [] => (runeError, 0)
  | b0 :: rest =>
    if b0.val < 0x80 then (b0.val, 1)
    else if b0.val < 0xC2 ∨ 0xF4 < b0.val then (runeError, 1)
    else if s.length < seqSize b0.val then (runeError, 1)
    else
      match rest with
      | [] => (runeError, 1)
      | b1 :: rest1 =>
        if b1.val < acceptLo b0.val ∨ acceptHi b0.val < b1.val then (runeError, 1)
        else if seqSize b0.val ≤ 2 then (b0.val % 32 * 64 + b1.val % 64, 2)
        else
          match rest1 with
          | [] => (runeError, 1)
          | b2 :: rest2 =>
            if b2.val < 0x80 ∨ 0xBF < b2.val then (runeError, 1)
            else if seqSize b0.val ≤ 3 then
              ((b0.val % 16 * 64 + b1.val % 64) * 64 + b2.val % 64, 3)
            else
              match rest2 with
              | [] => (runeError, 1)
              | b3 :: _ =>
                if b3.val < 0x80 ∨ 0xBF < b3.val then (runeError, 1)
                else
                  (((b0.val % 8 * 64 + b1.val % 64) * 64 + b2.val % 64) * 64 + b3.val % 64, 4)

/-- The encoding `json.Marshal` writes for one byte below `0x80` of a string: the byte
itself when it is in the encoder's table of safe bytes, else its escape. -/
def quoteAscii (b : Byte) : Bytes :=
  if b = ch '"' ∨ b = ch '\\' then [ch '\\', b]
  else if b.val = 8 then [ch '\\', ch 'b']
  else if b.val = 12 then [ch '\\', ch 'f']
  else if b.val = 10 then [ch '\\', ch 'n']
  else if b.val = 13 then [ch '\\', ch 'r']
  else if b.val = 9 then [ch '\\', ch 't']
  else if b.val < 0x20 ∨ b = ch '<' ∨ b = ch '>' ∨ b = ch '&' then
    [ch '\\', ch 'u', ch '0', ch '0', ch (hexDigit (b.val / 16)), ch (hexDigit (b.val % 16))]
  else [b]

/-- The loop of the string encoder of `json.Marshal` over the bytes of a Go string.
A byte below `0x80` is written by `quoteAscii`; otherwise a code point is decoded: a byte
that starts no valid encoding is written as the escape of U+FFFD, the line separators
U+2028 and U+2029 as their escapes, any other code point by its bytes unchanged.
`skip` counts the bytes of the current code point still to be passed over. -/
def quoteBytesAux : Nat → Bytes → Bytes
  | _, [] => []
  | skip + 1, _ :: rest => quoteBytesAux skip rest
  | 0, b :: rest =>
    if b.val < 0x80 then quoteAscii b ++ quoteBytesAux 0 rest
    else if (decodeRune (b :: rest)).1 = runeError ∧ (decodeRune (b :: rest)).2 = 1 then
      [ch '\\', ch 'u', ch 'f', ch 'f', ch 'f', ch 'd'] ++ quoteBytesAux 0 rest
    else if (decodeRune (b :: rest)).1 = 0x2028 ∨ (decodeRune (b :: rest)).1 = 0x2029 then
      [ch '\\', ch 'u', ch '2', ch '0', ch '2', ch (hexDigit ((decodeRune (b :: rest)).1 % 16))] ++
        quoteBytesAux ((decodeRune (b :: rest)).2 - 1) rest
    else
      (b :: rest).take (decodeRune (b :: rest)).2 ++
        quoteBytesAux ((decodeRune (b :: rest)).2 - 1) rest

/-- The JSON string literal `json.Marshal` writes for a Go string. -/
def quoteBytes (s : Bytes) : Bytes :=
  ch '"' :: (quoteBytesAux 0 s ++ [ch '"'])

/-- The marshalling of a `*string` over bytes. -/
def marshalPtrBytes : Option Bytes → Bytes
  | none => utf8 "null"
  | some s => quoteBytes s

/-- The expression `json.Marshal(map[string]*string\x7bkey: value\x7d)` over bytes. -/
def marshalPtrMapBytes (key : Bytes) (value : Option Bytes) : Bytes :=
  utf8 "\x7b" ++ quoteBytes key ++ utf8 ":" ++ marshalPtrBytes value ++ utf8 "\x7d"

/-! ### The reader over bytes

The reader below is not part of the program: it states what a request body denotes. -/

/-- A reader of JSON string literals (RFC 8259) for the bytes after the opening quote:
the bytes of the string and the bytes after the closing quote. A `\u` escape stands for the
UTF-8 encoding of its code point (escapes of surrogate halves, which the encoder never
writes, are not paired). -/
def readBytes : ReadState → Bytes → Option (Bytes × Bytes)
  | _, [] => none
  | .plain, b :: bs =>
    if b = ch '"' then some ([], bs)
    else if b = ch '\\' then readBytes .escape bs
    else if b.val < 0x20 then none
    else (readBytes .plain bs).map fun r => (b :: r.1, r.2)
  | .escape, b :: bs =>
    if b = ch 'u' then readBytes (.hex 3 0) bs
    else
      match unescape (Char.ofNat b.val) with
      | some d => (readBytes .plain bs).map fun r => (ch d :: r.1, r.2)
      | none => none
  | .hex left acc, b :: bs =>
    match hexValue (Char.ofNat b.val) with
    | none => none
    | some h =>
      match left with
      | 0 => (readBytes .plain bs).map fun r => (utf8Code (acc * 16 + h) ++ r.1, r.2)
      | n + 1 => readBytes (.hex n (acc * 16 + h)) bs

/-- A reader of a JSON object with a single member whose value is `null` or a string
literal: the key and the value (`none` for `null`). -/
def readMemberBytes (body : Bytes) : Option (Bytes × Option Bytes) :=
  match body with
  | b0 :: b1 :: rest =>
    if b0 = ch '\x7b' ∧ b1 = ch '"' then
      match readBytes .plain rest with
      | some (key, b2 :: value) =>
        if b2 = ch ':' then
          if value = utf8 "null\x7d" then some (key, none)
          else
            match value with
            | b3 :: rest3 =>
              if b3 = ch '"' then
                match readBytes .plain rest3 with
                | some (v, tail) => if tail = [ch '\x7d'] then some (key, some v) else none
                | none => none
              else none
            | [] => none
        else none
      | _ => none
    else none
  | _ => none

/-- The bytes with every byte that starts no valid UTF-8 encoding replaced by the
encoding of U+FFFD; the bytes of valid encodings are kept. -/
def toValidAux : Nat → Bytes → Bytes
  | _, [] => []
  | skip + 1, _ :: rest => toValidAux skip rest
  | 0, b :: rest =>
    if (decodeRune (b :: rest)).1 = runeError ∧ (decodeRune (b :: rest)).2 = 1 then
      utf8Code runeError ++ toValidAux 0 rest
    else
      (b :: rest).take (decodeRune (b :: rest)).2 ++
        toValidAux ((decodeRune (b :: rest)).2 - 1) rest

/-- The bytes with every invalid byte replaced by the encoding of U+FFFD. -/
def toValidUTF8 (s : Bytes) : Bytes := toValidAux 0 s

/-- Go `utf8.ValidString` by the decoding loop: no position decodes to `(runeError, 1)`. -/
def validAux : Nat → Bytes → Bool
  | _, [] => true
  | skip + 1, _ :: rest => validAux skip rest
  | 0, b :: rest =>
    !decide ((decodeRune (b :: rest)).1 = runeError ∧ (decodeRune (b :: rest)).2 = 1) &&
      validAux ((decodeRune (b :: rest)).2 - 1) rest

/-- Go `utf8.ValidString`: are the bytes valid UTF-8? -/
def validUTF8 (s : Bytes) : Bool := validAux 0 s

/-! ### `reassignIssue` over bytes -/

/-- The world for a run whose arguments are raw bytes: the text world, and the network
and library oracles that are handed bytes. -/
structure RawWorld where
  /-- The parts of the world that are text (credentials file, `base64`). -/
  world : World
  /-- The error of `http.NewRequest(method, url, body)`, if any. -/
  newRequest : String → Bytes → Option String
  /-- The round trip `client.Do(req)`. -/
  roundTrip : String → Bytes → Bytes → List (String × String) → HttpReply
  /-- Library `strings.ToUpper`. -/
  toUpper : Bytes → Bytes

/-- The source function `makeRequest` for a URL and a payload given as bytes. -/
def makeRequestBytes (raw : RawWorld) (method : String) (url payload : Bytes) :
    Run (Nat × Option String) := do
  let (username, passwd, err) ← loadCredentials raw.world
  match err with
  | some e => pure (0, some e)
  | none =>
    match raw.newRequest method url with
    | some e => pure (0, some e)
    | none => do
      let encoded := encodeAuth raw.world username passwd
      let headers :=
        [("Authorization", "Basic " ++ encoded), ("Content-Type", "application/json")]
      emit (.httpDoBytes method url payload headers)
      match raw.roundTrip method url payload headers with
      | .failed e => pure (0, some e)
      | .response statusCode _ _ _ => pure (statusCode, none)

/-- The source function `reassignIssue` on arguments given as raw bytes, as the program
receives them in `os.Args`. The verb `%s` of the two final `fmt.Printf` calls writes the
bytes of its operand unchanged. On arguments that are text it sends the encodings of the
bodies that `reassignIssue` sends. -/
def reassignIssueBytes (raw : RawWorld) (args : List Bytes) : Run Unit :=
  if args.length < 1 then println "Need a ticket number and ldap name"
  else do
    let arg0 ← index args 0
    let url := utf8 baseUrl ++ utf8 "/issue/" ++ arg0 ++ utf8 "/assignee"
    let assignee : Option Bytes ←
      if args.length = 2 then do
        let arg1 ← index args 1
        pure (some arg1)
      else pure none
    let rawPayload := marshalPtrMapBytes (utf8 "name") assignee
    let (status, err) ← makeRequestBytes raw "PUT" url rawPayload
    match err with
    | some e => println e
    | none =>
      if status ≠ 204 then println (toString status)
      else
        match assignee with
        | some a =>
          emit (.stdoutBytes
            (utf8 "Reassigned " ++ raw.toUpper arg0 ++ utf8 " to " ++ a ++ utf8 "\n"))
        | none => emit (.stdoutBytes (utf8 "Unassigned " ++ raw.toUpper arg0 ++ utf8 "\n"))

/-- The body of the request, for an HTTP round trip given as bytes. -/
def Event.payloadBytes? : Event → Option Bytes
  | .httpDoBytes _ _ payload _ => some payload
  | _ => none

/-- The request bodies a run sent as bytes, in order. -/
def Run.sentBytes {α : Type} (r : Run α) : List Bytes :=
  r.trace.filterMap Event.payloadBytes?

/-- Can a request with this method and URL be handed to the network: the credentials
load without error and `http.NewRequest` accepts the method and the URL. -/
def reachesServerBytes (raw : RawWorld) (method : String) (url : Bytes) : Bool :=
  match (loadCredentials raw.world).value with
  | some (_, _, none) => (raw.newRequest method url).isNone
  | _ => false

/-- The sample world for arguments given as bytes: every request is accepted and answered
with status 204. -/
def demoRawWorld : RawWorld where
  world := demoWorld
  newRequest := fun _ _ => none
  roundTrip := fun _ _ _ _ => .response 204 "204 No Content" "" none
  toUpper := id

/-- The text of the event, for a write to standard output. -/
def Event.text? : Event → Option String
  | .stdout text => some text
  | _ => none

/-- Everything a run wrote to standard output, as characters. -/
def Run.output {α : Type} (r : Run α) : List Char :=
  ((r.trace.filterMap Event.text?).map String.data).flatten

/-- One output line of the list renderer without its final newline: the key
right-aligned in ten columns, TAB, the status right-aligned in twelve columns, TAB, the
summary. -/
def resultRow (issue : JiraIssue) : List Char :=
  pad false ' ' 10 issue.Key.data ++ '\t' ::
    (pad false ' ' 12 issue.Fields.Status.Name.data ++ '\t' :: issue.Fields.Summary.data)

/-- No newline in the key, the status name and the summary of the issue. -/
def singleLine (issue : JiraIssue) : Bool :=
  !issue.Key.data.contains '\n' && !issue.Fields.Status.Name.data.contains '\n' &&
    !issue.Fields.Summary.data.contains '\n'

/-- A page of one issue whose key and status fill their columns and whose summary
contains a newline. -/
def newlinePage : JiraResults :=
  ⟨0, 50, 1, some
    [⟨"3", "PROJECT-100",
      ⟨"Fix\nme", none, none, none, ⟨"Under Review"⟩, ⟨[]⟩, [], none, none⟩⟩]⟩

/-- The sample world in which every search response decodes to that page. -/
def newlineWorld : World :=
  { demoWorld with unmarshalResults := fun _ => (newlinePage, none) }

/-! ## Theorems -/

theorem replaceAllAux_pair (q : CharClass) (c d : Char) (cs : List Char) :
    replaceAllAux patAt [q] [] 0 (c :: d :: cs) =
      if c = '@' ∧ q d = true then replaceAllAux patAt [q] [] 0 cs
      else c :: replaceAllAux patAt [q] [] 0 (d :: cs) := by
  simp [replaceAllAux, matchesAt, patAt]

theorem replaceAllAux_single (q : CharClass) (c : Char) :
    replaceAllAux patAt [q] [] 0 [c] = [c] := by
  simp [replaceAllAux, matchesAt, patAt]

theorem replaceAllAux_cons_of_ne (q : CharClass) (c : Char) (cs : List Char) (h : c ≠ '@') :
    replaceAllAux patAt [q] [] 0 (c :: cs) = c :: replaceAllAux patAt [q] [] 0 cs := by
  simp [replaceAllAux, matchesAt, patAt, h]

theorem stripChars_pair (c d : Char) (cs : List Char) :
    stripChars (c :: d :: cs) =
      if c = '@' ∧ d ≠ '\n' then stripChars cs else c :: stripChars (d :: cs) := by
  simp [stripChars, replaceAllAux_pair, patDot]

/-- The regular-expression replacement by the pattern `@.` is the removal of the pairs. -/
theorem stripChars_eq_dropAtPairs (s : List Char) : stripChars s = dropAtPairs s := by
  induction s using dropAtPairs.induct with
  | case1 => rfl
  | case2 c => simp [stripChars, replaceAllAux_single, dropAtPairs]
  | case3 c d cs h ih => rw [stripChars_pair, dropAtPairs, if_pos h, if_pos h, ih]
  | case4 c d cs h ih => rw [stripChars_pair, dropAtPairs, if_neg h, if_neg h, ih]

theorem hasAtPair_stripChars (s : List Char) : hasAtPair (stripChars s) = false := by
  rw [stripChars_eq_dropAtPairs]
  induction s using dropAtPairs.induct with
  | case1 => rfl
  | case2 c => simp [dropAtPairs, hasAtPair, matchesAt]
  | case3 c d cs h ih => rw [dropAtPairs, if_pos h]; exact ih
  | case4 c d cs h ih =>
    rw [dropAtPairs, if_neg h, hasAtPair, ih]
    by_cases hc : c = '@'
    · have hd : d = '\n' := by
        by_contra hd
        exact h ⟨hc, hd⟩
      subst hd
      have : dropAtPairs ('\n' :: cs) = '\n' :: dropAtPairs cs := by
        rw [← stripChars_eq_dropAtPairs, ← stripChars_eq_dropAtPairs]
        exact replaceAllAux_cons_of_ne _ _ _ (by decide)
      simp [this, matchesAt, patDot]
    · cases hds : dropAtPairs (d :: cs) <;> simp [matchesAt, patAt, hc]

theorem stripChars_of_no_pair (t : List Char) (h : hasAtPair t = false) : stripChars t = t := by
  induction t with
  | nil => rfl
  | cons c cs ih =>
    simp only [hasAtPair, Bool.or_eq_false_iff] at h
    have h2 : stripChars (c :: cs) = c :: stripChars cs := by
      simp only [stripChars, replaceAllAux]
      rw [if_neg]
      · simp [h.1]
    rw [h2, ih h.2]

theorem dropAtPairs_sublist (s : List Char) : (dropAtPairs s).Sublist s := by
  induction s using dropAtPairs.induct with
  | case1 => exact List.Sublist.refl _
  | case2 c => exact List.Sublist.refl _
  | case3 c d cs h ih =>
    rw [dropAtPairs, if_pos h]
    exact (ih.cons d).cons c
  | case4 c d cs h ih =>
    rw [dropAtPairs, if_neg h]
    exact ih.cons₂ c

theorem dropAtPairs_eq_spec (s : List Char) (h : onlyMarkup s = true) :
    dropAtPairs s = specStripChars s := by
  induction s using dropAtPairs.induct with
  | case1 => rfl
  | case2 c => simp [dropAtPairs, specStripChars, replaceAllAux_single]
  | case3 c d cs hcd ih =>
    have hcs : onlyMarkup cs = true := by
      simp only [onlyMarkup, Bool.and_eq_true] at h
      exact h.2.2
    have hm : isMarkupChar d = true := by
      simp only [onlyMarkup, Bool.and_eq_true] at h
      have h1 := h.1
      simp [matchesAt, patAt, patDot, hcd.1, hcd.2] at h1
      exact h1
    rw [dropAtPairs, if_pos hcd, specStripChars, replaceAllAux_pair, if_pos ⟨hcd.1, hm⟩]
    exact ih hcs
  | case4 c d cs hcd ih =>
    have hcs : onlyMarkup (d :: cs) = true := by
      rw [onlyMarkup, Bool.and_eq_true] at h
      exact h.2
    have hm : ¬ (c = '@' ∧ isMarkupChar d = true) := by
      rintro ⟨hc, hd⟩
      apply hcd
      refine ⟨hc, ?_⟩
      rintro rfl
      exact absurd hd (by decide)
    rw [dropAtPairs, if_neg hcd, specStripChars, replaceAllAux_pair, if_neg hm]
    congr 1
    exact ih hcs

/-- Claim C10. Plain-mode stripping by the pattern `@.` leaves no `@` that is immediately
followed by a character other than newline, and stripping a second time changes nothing. -/
theorem stripMarkup_leaves_no_pair_and_idempotent (s : String) :
    hasAtPair (stripMarkup s).data = false ∧ stripMarkup (stripMarkup s) = stripMarkup s := by
  have h : hasAtPair (stripChars s.data) = false := hasAtPair_stripChars s.data
  refine ⟨h, ?_⟩
  show (⟨stripChars (stripChars s.data)⟩ : String) = ⟨stripChars s.data⟩
  rw [stripChars_of_no_pair _ h]

/-- Claim C6 as stated fails. In plain mode `smartPrintln` prints `a@1b` as `ab`: the pair
`@1` is removed although it is not a markup token (`1` is neither a letter nor `|`), while
removing exactly the markup tokens would leave the text as it is. -/
theorem smartPrintln_removes_non_markup :
    (smartPrintln demoWorld false "a@1b").trace = [Event.stdout "ab\n"] ∧
      (smartPrintf demoWorld false "a@1b" []).trace = [Event.stdout "ab"] ∧
      specStripMarkup "a@1b" = "a@1b" := by
  decide

/-- Claim C6, amended. In plain mode `smartPrintln` prints its text, and `smartPrintf`
formats with its format string, after removing every pair of an `@` and a following
character other than newline (left to right, without overlap); all other characters stay,
unchanged and in order. Where every such pair of the text is a markup token (`@` and a
letter, or `@|`), this is the removal of exactly the markup tokens. -/
theorem smartPrint_plain_removes_at_pairs (w : World) (s : String) (a : List Arg) :
    smartPrintln w false s = println ⟨dropAtPairs s.data⟩ ∧
      smartPrintf w false s a = printf ⟨dropAtPairs s.data⟩ a ∧
      (dropAtPairs s.data).Sublist s.data ∧
      (onlyMarkup s.data = true →
        smartPrintln w false s = println (specStripMarkup s) ∧
        smartPrintf w false s a = printf (specStripMarkup s) a) := by
  have h1 : smartPrintln w false s = println ⟨dropAtPairs s.data⟩ := by
    simp [smartPrintln, stripMarkup, stripChars_eq_dropAtPairs]
  have h2 : smartPrintf w false s a = printf ⟨dropAtPairs s.data⟩ a := by
    simp [smartPrintf, stripMarkup, stripChars_eq_dropAtPairs]
  refine ⟨h1, h2, dropAtPairs_sublist _, ?_⟩
  intro h
  rw [h1, h2, specStripMarkup, dropAtPairs_eq_spec _ h]
  exact ⟨rfl, rfl⟩

/-- The amended C6 at the header line of `listWatched`, whose `@` pairs are markup tokens. -/
theorem smartPrint_plain_removes_at_pairs_witness :
    onlyMarkup "@yWatched Issues@|".data = true ∧
      smartPrintln demoWorld false "@yWatched Issues@|" = println "Watched Issues" := by
  refine ⟨by decide, ?_⟩
  have h := (smartPrint_plain_removes_at_pairs demoWorld "@yWatched Issues@|" []).2.2.2
    (by decide)
  have e : specStripMarkup "@yWatched Issues@|" = "Watched Issues" := by decide
  rw [e] at h
  exact h.1

/-! ### Sequencing -/

theorem pure_bind_run {α β : Type} (a : α) (f : α → Run β) : (pure a >>= f) = f a := by
  show Run.bind _ _ = _
  simp [Run.bind, pure]

/-! ### The dispatcher -/

/-- Claim C8. When the first argument is neither `help` nor a key of `actionMap`, `main`
does what it does for the same arguments preceded by `desc`: both are the call of `showDesc`
on the whole argument list. -/
theorem main_fallback_is_desc (w : World) (prog a1 : String) (rest : List String)
    (h1 : a1 ≠ "help") (h2 : a1 ∉ actionMap.map Prod.fst) :
    main w (prog :: a1 :: rest) = main w (prog :: "desc" :: a1 :: rest) ∧
      main w (prog :: a1 :: rest) = showDesc w true (a1 :: rest) := by
  have hl : actionMap.lookup a1 = none := by
    rw [List.lookup_eq_none_iff]
    intro p hp
    have hm : p.1 ∈ actionMap.map Prod.fst := List.mem_map_of_mem _ hp
    simp only [bne_iff_ne, ne_eq]
    rintro rfl
    exact h2 hm
  have hd : actionMap.lookup "desc" = some ⟨showDesc, "show the description of a ticket"⟩ := by
    rfl
  have e1 : main w (prog :: a1 :: rest) = showDesc w true (a1 :: rest) := by
    simp [main, index, pure_bind_run, h1, hl]
  have e2 : main w (prog :: "desc" :: a1 :: rest) = showDesc w true (a1 :: rest) := by
    simp [main, index, pure_bind_run, hd]
  exact ⟨e1.trans e2.symm, e1⟩

/-- Claim C8 at the single argument `ABC-123`. -/
theorem main_fallback_is_desc_witness :
    "ABC-123" ≠ "help" ∧ "ABC-123" ∉ actionMap.map Prod.fst ∧
      main demoWorld ["jira", "ABC-123"] = main demoWorld ["jira", "desc", "ABC-123"] ∧
      main demoWorld ["jira", "ABC-123"] = showDesc demoWorld true ["ABC-123"] :=
  ⟨by decide, by decide, main_fallback_is_desc demoWorld "jira" "ABC-123" [] (by decide) (by decide)⟩

/-! ### Credentials -/

theorem splitChars_append (sep : Char) (u p : List Char) (hu : sep ∉ u) :
    splitChars sep (u ++ sep :: p) = u :: splitChars sep p := by
  induction u with
  | nil => simp [splitChars]
  | cons c u ih =>
    have hc : c ≠ sep := fun h => hu (by simp [h])
    have hu2 : sep ∉ u := fun h => hu (List.mem_cons_of_mem _ h)
    simp [splitChars, hc, ih hu2]

theorem splitChars_head (sep : Char) (p : List Char) :
    ∃ ps, splitChars sep p = p.takeWhile (fun c => c != sep) :: ps := by
  induction p with
  | nil => exact ⟨[], rfl⟩
  | cons c p ih =>
    obtain ⟨ps, hps⟩ := ih
    by_cases hc : c = sep
    · exact ⟨splitChars sep p, by simp [splitChars, hc]⟩
    · exact ⟨ps, by simp [splitChars, hc, hps]⟩

/-- What `loadCredentials` returns on a file whose trimmed text is `u:p` with no colon in
`u`: the user name `u`, and as password the part of `p` before its first colon. -/
theorem loadCredentials_of_trimmed (w : World) (raw : String) (err : Option String)
    (u p : List Char) (hread : w.readFile (w.home ++ "/.jirarc") = some (raw, err))
    (htrim : trimSpace raw = ⟨u ++ ':' :: p⟩) (hu : ':' ∉ u) :
    loadCredentials w = pure (⟨u⟩, ⟨p.takeWhile (fun c => c != ':')⟩, err) := by
  obtain ⟨ps, hps⟩ := splitChars_head ':' p
  simp [loadCredentials, hread, htrim, split, splitChars_append _ _ _ hu, hps, index,
    pure_bind_run]

/-- Claim C1 fails on the code. The file content `user:pa:ss` trims to `u:p` with `u` the
text `user` and `p` the text `pa:ss`, yet `loadCredentials` returns the password `pa`. -/
theorem loadCredentials_cuts_password_at_colon :
    trimSpace "user:pa:ss\n" = "user" ++ ":" ++ "pa:ss" ∧ ':' ∉ "user".data ∧
      (loadCredentials (rcWorld "user:pa:ss\n")).value = some ("user", "pa", none) ∧
      (loadCredentials (rcWorld "user:pa:ss\n")).value ≠ some ("user", "pa:ss", none) := by
  decide

/-! ### `showDesc` -/

/-- Once the issue is decoded, an absent reporter makes `showDesc` panic, in every world
and in both output modes. -/
theorem showDescIssue_panics_without_reporter (w : World) (useColor : Bool) (issue : JiraIssue)
    (h : issue.Fields.Reporter = none) :
    (showDescIssue w useColor issue).stopped =
      some (.panic "runtime error: invalid memory address or nil pointer dereference") := by
  unfold showDescIssue
  rw [h]
  cases useColor <;> rfl

/-- Claim C2 fails on the code. For an issue response that decodes with a null reporter,
`showDesc` prints the header line and then stops with a nil-pointer panic. -/
theorem showDesc_panics_on_null_reporter :
    unreportedIssue.Fields.Reporter = none ∧
      (showDesc (issueWorld unreportedIssue) false ["ABC-1"]).stopped =
        some (.panic "runtime error: invalid memory address or nil pointer dereference") ∧
      (showDesc (issueWorld unreportedIssue) false ["ABC-1"]).trace =
        [.httpDo "GET" "https://bits.bazaarvoice.com/jira/rest/api/2/issue/ABC-1" none
            [("Authorization", "Basic alice:secret")],
         .stdout "ABC-1 - Printer on fire - Open\n"] := by
  decide

/-- Claim C7 fails on the code. For an issue with a reporter and no description that has
a resolution comment `Refilled.` and an attachment `tray.png`, `showDesc` prints
`No description` and returns: neither the resolution comment nor the file name is
printed. The same issue with a description gets both. -/
theorem showDesc_returns_after_no_description :
    (showDesc (issueWorld undescribedIssue) false ["ABC-2"]).trace =
        [.httpDo "GET" "https://bits.bazaarvoice.com/jira/rest/api/2/issue/ABC-2" none
            [("Authorization", "Basic alice:secret")],
         .stdout "ABC-2 - Printer out of paper - Closed\n",
         .stdout "Reporter: Bob B <bob>\n",
         .stdout "Assignee: Unassigned\n",
         .stdout "No description\n"] ∧
      (showDesc (issueWorld undescribedIssue) false ["ABC-2"]).stopped = none ∧
      (showDesc (issueWorld describedIssue) false ["ABC-2"]).trace =
        [.httpDo "GET" "https://bits.bazaarvoice.com/jira/rest/api/2/issue/ABC-2" none
            [("Authorization", "Basic alice:secret")],
         .stdout "ABC-2 - Printer out of paper - Closed\n",
         .stdout "Reporter: Bob B <bob>\n",
         .stdout "Assignee: Unassigned\n",
         .stdout "\nDescription\n",
         .stdout "Tray 2 is empty.\n",
         .stdout "\nResolution\n",
         .stdout "Refilled.\n",
         .stdout "\nAttachments\n",
         .stdout "tray.png\n"] := by
  decide

/-! ### Argument counts -/

/-- The handlers that compare the argument count with `!=` print their usage hint and
do nothing else on any other count; `reassignIssue` does so only for an empty list. -/
theorem usage_hint_on_wrong_count (w : World) (useColor : Bool) (args : List String) :
    (args.length ≠ 1 → openTicket w useColor args = println "Need ticket number to open") ∧
    (args.length ≠ 1 → ticketLink w useColor args = println "Need a ticket number") ∧
    (args.length ≠ 1 →
      showComments w useColor args = println "Need a ticket number to display comments for") ∧
    (args.length ≠ 1 →
      showDesc w useColor args = println "Need a ticket number to display description") ∧
    (args.length ≠ 1 →
      downloadAttachments w useColor args = println "Need a ticket number to fetch attachments") ∧
    (args.length ≠ 2 →
      addComment w useColor args = println "Need a ticket number and a comment message to add") ∧
    (args.length < 1 →
      reassignIssue w useColor args = println "Need a ticket number and ldap name") := by
  refine ⟨?_, ?_, ?_, ?_, ?_, ?_, ?_⟩ <;> intro h
  · simp [openTicket, h]
  · simp [ticketLink, h]
  · simp [showComments, h]
  · simp [showDesc, h]
  · simp [downloadAttachments, h]
  · simp [addComment, h]
  · simp [reassignIssue, h]

/-- Claim C4 fails on the code. Called with three arguments, `reassignIssue` prints no
usage hint: it sends the PUT request with the payload of an unassignment and reports the
ticket as unassigned. -/
theorem reassignIssue_three_args_sends_request :
    (reassignIssue demoWorld false ["ABC-1", "bob", "carol"]).trace =
      [.httpDo "PUT" "https://bits.bazaarvoice.com/jira/rest/api/2/issue/ABC-1/assignee"
          (some "\x7b\"name\":null\x7d")
          [("Authorization", "Basic alice:secret"), ("Content-Type", "application/json")],
       .stdout "Unassigned ABC-1\n"] := by
  decide

/-! ### `downloadAttachments` -/

/-- Claim C5 fails on the code. The issue has the attachments `a.txt` and `b.txt` and the
content of `a.txt` is answered with status 404: `makeGetRequest` prints the URL and the
status and returns no body and no error, so the loop creates `a.txt`, writes the empty
body to it, and goes on to fetch and write `b.txt`. -/
theorem downloadAttachments_goes_on_after_404 :
    (downloadAttachments downloadWorld false ["ABC-3"]).trace =
      [.httpDo "GET" "https://bits.bazaarvoice.com/jira/rest/api/2/issue/ABC-3" none
          [("Authorization", "Basic alice:secret")],
       .stdout "Downloading attachments...\n",
       .stdout "a.txt\n",
       .httpDo "GET" "https://host/att/1/a.txt" none [("Authorization", "Basic alice:secret")],
       .stdout "https://host/att/1/a.txt\n",
       .stdout "404 Not Found\n",
       .fileCreate "a.txt",
       .fileWrite "a.txt" "",
       .stdout "b.txt\n",
       .httpDo "GET" "https://host/att/2/b.txt" none [("Authorization", "Basic alice:secret")],
       .fileCreate "b.txt",
       .fileWrite "b.txt" "data"] := by
  decide

/-! ### `displayResults` -/

theorem pad_zero (minus : Bool) (fill : Char) (s : List Char) : pad minus fill 0 s = s := by
  cases minus <;> simp [pad]

theorem pad_of_le (fill : Char) (width : Nat) (s : List Char) (h : width ≤ s.length) :
    pad false fill width s = s := by
  simp [pad, Nat.sub_eq_zero_of_le h]

theorem sprintf_result_line (k st sm : String) :
    sprintf "%10s\t%12s\t%s\n" [.str k, .str st, .str sm] =
      ⟨pad false ' ' 10 k.data ++ '\t' ::
        (pad false ' ' 12 st.data ++ '\t' :: (sm.data ++ ['\n']))⟩ := by
  have e : "%10s\t%12s\t%s\n".data =
      ['%', '1', '0', 's', '\t', '%', '1', '2', 's', '\t', '%', 's', '\n'] := by decide
  simp [sprintf, e, sprintfAux, formatArg, extraArgs, Char.isDigit, pad_zero]

theorem displayResultsLoop_plain (w : World) (issues : List JiraIssue) :
    displayResultsLoop w false issues =
      ⟨issues.map fun issue => Event.stdout (resultLine issue), .ok ()⟩ := by
  induction issues with
  | nil => rfl
  | cons issue rest ih =>
    have hs : stripMarkup "@c%10s\t@b%12s\t@|%s\n" = "%10s\t%12s\t%s\n" := by decide
    have hp : smartPrintf w false "@c%10s\t@b%12s\t@|%s\n"
        [.str issue.Key, .str issue.Fields.Status.Name, .str issue.Fields.Summary] =
        emit (.stdout (resultLine issue)) := by
      simp only [smartPrintf, hs, printf, sprintf_result_line, resultLine]
      rfl
    rw [displayResultsLoop, hp, ih]
    rfl

theorem resultLine_data (issue : JiraIssue) :
    (resultLine issue).data = resultRow issue ++ ['\n'] := by
  simp [resultLine, resultRow]

theorem resultRow_no_newline (issue : JiraIssue) (h : singleLine issue = true) :
    '\n' ∉ resultRow issue := by
  simp only [singleLine, Bool.and_eq_true, Bool.not_eq_true', List.contains_eq_any_beq,
    List.any_eq_false, beq_iff_eq] at h
  obtain ⟨⟨hk, hs⟩, hm⟩ := h
  have hp : ∀ (w : Nat) (s : List Char), (∀ x ∈ s, ¬ '\n' = x) → '\n' ∉ pad false ' ' w s := by
    intro w s hs hmem
    simp only [pad, Bool.false_eq_true, if_false, List.mem_append, List.mem_replicate] at hmem
    rcases hmem with ⟨_, e⟩ | e
    · exact absurd e (by decide)
    · exact hs _ e rfl
  intro hmem
  simp only [resultRow, List.mem_append, List.mem_cons] at hmem
  rcases hmem with e | e | e | e | e
  · exact hp _ _ hk e
  · exact absurd e (by decide)
  · exact hp _ _ hs e
  · exact absurd e (by decide)
  · exact hm _ e rfl

theorem splitChars_lines (issues : List JiraIssue)
    (h : ∀ issue ∈ issues, singleLine issue = true) :
    splitChars '\n' ((issues.map fun issue => (resultLine issue).data).flatten) =
      issues.map resultRow ++ [[]] := by
  induction issues with
  | nil => rfl
  | cons issue rest ih =>
    have h1 := resultRow_no_newline issue (h issue (by simp))
    have h2 := ih (fun i hi => h i (List.mem_cons_of_mem _ hi))
    rw [List.map_cons, List.flatten_cons, resultLine_data, List.append_assoc,
      List.singleton_append, splitChars_append _ _ _ h1, h2]
    rfl

/-- Claim C9 as stated fails, in two ways. For a response that decodes to the two issues
`AB-1` (status `Open`, summary `First`) and `AB-2` (status `Closed`, summary `Second`), the
plain-mode renderer prints the key padded to ten and the status padded to twelve columns,
not the bare `key<TAB>status<TAB>summary`. For a response that decodes to one issue whose
summary is `Fix`, newline, `me`, it prints two lines for the one issue. -/
theorem displayResults_pads_columns :
    (displayResults resultsWorld false "").trace =
        [.stdout "      AB-1\t        Open\tFirst\n",
         .stdout "      AB-2\t      Closed\tSecond\n"] ∧
      (displayResults resultsWorld false "").trace ≠
        [.stdout "AB-1\tOpen\tFirst\n", .stdout "AB-2\tClosed\tSecond\n"] ∧
      (twoIssuesPage.Issues.getD []).map (fun issue => Event.stdout (specResultLine issue)) =
        [.stdout "AB-1\tOpen\tFirst\n", .stdout "AB-2\tClosed\tSecond\n"] ∧
      (newlinePage.Issues.getD []).length = 1 ∧
      (displayResults newlineWorld false "").trace =
        [.stdout "PROJECT-100\tUnder Review\tFix\nme\n"] ∧
      splitChars '\n' (displayResults newlineWorld false "").output =
        ["PROJECT-100\tUnder Review\tFix".data, "me".data, []] := by
  decide

/-- Claim C9, amended. For a search response that decodes to a page with the issues
`issues`, the plain-mode renderer `displayResults` returns after writing, for each issue in
response order, the key right-aligned in ten columns, TAB, the status right-aligned in
twelve columns, TAB, the summary, newline. When no key, status or summary contains a
newline, the output split at the newlines is exactly one line per issue, these lines in
order (followed by the empty piece after the last newline). For an issue whose key has at
least ten and whose status has at least twelve characters the line is
`key<TAB>status<TAB>summary`. -/
theorem displayResults_plain_lines (w : World) (body : String) (results : JiraResults)
    (issues : List JiraIssue) (hdec : w.unmarshalResults body = (results, none))
    (hiss : results.Issues = some issues) :
    (displayResults w false body).trace =
        issues.map (fun issue => Event.stdout (resultLine issue)) ∧
      (displayResults w false body).stopped = none ∧
      ((∀ issue ∈ issues, singleLine issue = true) →
        splitChars '\n' (displayResults w false body).output = issues.map resultRow ++ [[]]) ∧
      ∀ issue ∈ issues, 10 ≤ issue.Key.length → 12 ≤ issue.Fields.Status.Name.length →
        resultLine issue = specResultLine issue := by
  have h : displayResults w false body =
      ⟨issues.map fun issue => Event.stdout (resultLine issue), .ok ()⟩ := by
    simp only [displayResults, hdec, hiss, displayResultsLoop_plain]
  refine ⟨by rw [h], by rw [h]; rfl, ?_, ?_⟩
  · intro hs
    have ho : (displayResults w false body).output =
        (issues.map fun issue => (resultLine issue).data).flatten := by
      have hfm : ∀ l : List JiraIssue,
          List.filterMap (fun x => some (resultLine x)) l = l.map resultLine := by
        intro l
        induction l with
        | nil => rfl
        | cons x l ih => simp [List.filterMap_cons, ih]
      rw [h]
      simp [Run.output, List.filterMap_map, Event.text?, Function.comp_def, hfm]
    rw [ho]
    exact splitChars_lines issues hs
  · intro issue _ hk hst
    have hk2 : 10 ≤ issue.Key.data.length := hk
    have hst2 : 12 ≤ issue.Fields.Status.Name.data.length := hst
    simp only [resultLine, specResultLine, pad_of_le _ _ _ hk2, pad_of_le _ _ _ hst2]
    apply String.ext
    simp [String.data_append]

/-- The amended C9 on the page of two issues, whose fields contain no newline: the
output is exactly the two lines. -/
theorem displayResults_plain_lines_witness :
    resultsWorld.unmarshalResults "" = (twoIssuesPage, none) ∧
      (displayResults resultsWorld false "").trace =
        [.stdout "      AB-1\t        Open\tFirst\n",
         .stdout "      AB-2\t      Closed\tSecond\n"] ∧
      splitChars '\n' (displayResults resultsWorld false "").output =
        ["      AB-1\t        Open\tFirst".data, "      AB-2\t      Closed\tSecond".data, []] := by
  have h := displayResults_plain_lines resultsWorld "" twoIssuesPage
    (twoIssuesPage.Issues.getD []) rfl rfl
  refine ⟨rfl, ?_, ?_⟩
  · rw [h.1]; decide
  · rw [h.2.2.1 (by decide)]; decide

/-! ### The payload of `reassignIssue` -/

theorem bind_sentBodies {α β : Type} (m : Run α) (f : α → Run β)
    (hf : ∀ a, (f a).sentBodies = []) : (m >>= f).sentBodies = m.sentBodies := by
  show (Run.bind m f).sentBodies = _
  unfold Run.bind
  cases h : m.result with
  | error e => rfl
  | ok a => 
    have := hf a
    simp only [Run.sentBodies] at this ⊢
    simp [this]

theorem loadCredentials_cases (w : World) :
    (∃ e, loadCredentials w = ⟨[.stdout "Missing JIRA credentials in ~/.jirarc\n"], .error e⟩) ∨
      (∃ r, loadCredentials w = ⟨[], r⟩) := by
  unfold loadCredentials
  cases w.readFile (w.home ++ "/.jirarc") with
  | none => exact Or.inl ⟨.exit 1, rfl⟩
  | some p =>
    obtain ⟨raw, err⟩ := p
    right
    dsimp only
    generalize split (trimSpace raw) ':' = creds
    rcases creds with _ | ⟨a, _ | ⟨b, rest⟩⟩
    · exact ⟨_, rfl⟩
    · exact ⟨_, rfl⟩
    · exact ⟨_, rfl⟩

theorem makeRequest_sentBodies (w : World) (method url payload : String) :
    (makeRequest w method url payload).sentBodies =
      if reachesServer w method url then [payload] else [] := by
  unfold makeRequest reachesServer
  rcases loadCredentials_cases w with ⟨e, h⟩ | ⟨r, h⟩
  · rw [h]; rfl
  · rw [h]
    rcases r with e | ⟨user, pass, err⟩
    · rfl
    · cases err with
      | some e => rfl
      | none =>
        cases hn : w.newRequest method url with
        | some e => simp [bind, Run.bind, Run.value, Run.sentBodies, hn, pure]
        | none =>
          simp only [bind, Run.bind, Run.value, Run.sentBodies, hn, pure, emit]
          cases w.roundTrip method url (some payload)
            [("Authorization", "Basic " ++ encodeAuth w user pass),
              ("Content-Type", "application/json")] <;> simp [Event.payload?]
theorem reassignIssue_sentBodies (w : World) (useColor : Bool) (args : List String)
    (arg0 : String) (rest : List String) (h : args = arg0 :: rest) :
    (reassignIssue w useColor args).sentBodies =
      (makeRequest w "PUT" (baseUrl ++ "/issue/" ++ arg0 ++ "/assignee")
        (marshalPtrMap "name" (if args.length = 2 then args.get? 1 else none))).sentBodies := by
  subst h
  have hf : ∀ (assignee : Option String) (a : Nat × Option String),
      (match a with
        | (status, err) =>
          match err with
          | some e => println e
          | none =>
            if status ≠ 204 then println (toString status)
            else
              match assignee with
              | some a => printf "Reassigned %s to %s\n" [.str (w.toUpper arg0), .str a]
              | none => printf "Unassigned %s\n" [.str (w.toUpper arg0)]).sentBodies = [] := by
    rintro assignee ⟨status, err⟩
    cases err with
    | some e => rfl
    | none =>
      dsimp only
      split_ifs
      · rfl
      · cases assignee <;> rfl
  rcases rest with _ | ⟨arg1, _ | ⟨arg2, rest⟩⟩
  · simp only [reassignIssue, index, pure_bind_run, List.length_cons, List.length_nil,
      List.get?, Nat.lt_irrefl, if_false]
    exact bind_sentBodies _ _ (hf none)
  · simp only [reassignIssue, index, pure_bind_run, List.length_cons, List.length_nil,
      List.get?, Nat.lt_irrefl, if_false]
    exact bind_sentBodies _ _ (hf (some arg1))
  · have h3 : ¬ ((arg0 :: arg1 :: arg2 :: rest).length = 2) := by simp
    have h1 : ¬ ((arg0 :: arg1 :: arg2 :: rest).length < 1) := by simp
    simp only [reassignIssue, index, pure_bind_run, List.get?, if_neg h1, if_neg h3]
    exact bind_sentBodies _ _ (hf none)

/-- On text arguments the only body `reassignIssue` sends is the marshalled map with the
single key `name`, and it is sent whenever the request reaches the network. -/
theorem reassignIssue_text_payload (w : World) (useColor : Bool) (t : String)
    (rest : List String) :
    (reassignIssue w useColor (t :: rest)).sentBodies =
      (if reachesServer w "PUT" (baseUrl ++ "/issue/" ++ t ++ "/assignee")
        then [marshalPtrMap "name" (if (t :: rest).length = 2 then (t :: rest).get? 1 else none)]
        else []) := by
  rw [reassignIssue_sentBodies w useColor (t :: rest) t rest rfl, makeRequest_sentBodies]

/-! ### The request body over bytes -/

theorem quoteBytesAux_skip (k : Nat) (l : Bytes) :
    quoteBytesAux k l = quoteBytesAux 0 (l.drop k) := by
  induction k generalizing l with
  | zero => simp
  | succ k ih =>
    cases l with
    | nil => simp [quoteBytesAux]
    | cons b rest => simp [quoteBytesAux, ih]

theorem toValidAux_skip (k : Nat) (l : Bytes) :
    toValidAux k l = toValidAux 0 (l.drop k) := by
  induction k generalizing l with
  | zero => simp
  | succ k ih =>
    cases l with
    | nil => simp [toValidAux]
    | cons b rest => simp [toValidAux, ih]

theorem validAux_skip (k : Nat) (l : Bytes) :
    validAux k l = validAux 0 (l.drop k) := by
  induction k generalizing l with
  | zero => simp
  | succ k ih =>
    cases l with
    | nil => simp [validAux]
    | cons b rest => simp [validAux, ih]

theorem decodeRune_two (b b1 : Byte) (t : Bytes) (h1 : 0xC2 ≤ b.val) (h2 : b.val < 0xE0) :
    decodeRune (b :: b1 :: t) =
      if b1.val < 0x80 ∨ 0xBF < b1.val then (runeError, 1)
      else (b.val % 32 * 64 + b1.val % 64, 2) := by
  have hs : seqSize b.val = 2 := by simp [seqSize, h2]
  have hlo : acceptLo b.val = 0x80 := by
    simp only [acceptLo]; rw [if_neg (by omega), if_neg (by omega)]
  have hhi : acceptHi b.val = 0xBF := by
    simp only [acceptHi]; rw [if_neg (by omega), if_neg (by omega)]
  simp only [decodeRune, hs, hlo, hhi, List.length_cons]
  rw [if_neg (by omega), if_neg (by omega), if_neg (by omega)]
  simp

theorem decodeRune_three (b b1 b2 : Byte) (t : Bytes) (h1 : 0xE0 ≤ b.val) (h2 : b.val < 0xF0) :
    decodeRune (b :: b1 :: b2 :: t) =
      if b1.val < acceptLo b.val ∨ acceptHi b.val < b1.val then (runeError, 1)
      else if b2.val < 0x80 ∨ 0xBF < b2.val then (runeError, 1)
      else ((b.val % 16 * 64 + b1.val % 64) * 64 + b2.val % 64, 3) := by
  have hs : seqSize b.val = 3 := by
    simp only [seqSize]; rw [if_neg (by omega), if_pos h2]
  simp only [decodeRune, hs, List.length_cons]
  rw [if_neg (by omega), if_neg (by omega), if_neg (by omega)]
  simp

theorem decodeRune_four (b b1 b2 b3 : Byte) (t : Bytes) (h1 : 0xF0 ≤ b.val)
    (h2 : b.val ≤ 0xF4) :
    decodeRune (b :: b1 :: b2 :: b3 :: t) =
      if b1.val < acceptLo b.val ∨ acceptHi b.val < b1.val then (runeError, 1)
      else if b2.val < 0x80 ∨ 0xBF < b2.val then (runeError, 1)
      else if b3.val < 0x80 ∨ 0xBF < b3.val then (runeError, 1)
      else (((b.val % 8 * 64 + b1.val % 64) * 64 + b2.val % 64) * 64 + b3.val % 64, 4) := by
  have hs : seqSize b.val = 4 := by
    simp only [seqSize]; rw [if_neg (by omega), if_neg (by omega)]
  simp only [decodeRune, hs, List.length_cons]
  rw [if_neg (by omega), if_neg (by omega), if_neg (by omega)]
  simp

theorem decodeRune_short (b : Byte) (rest : Bytes) (h0 : 0x80 ≤ b.val)
    (h : b.val < 0xC2 ∨ 0xF4 < b.val ∨ rest.length + 1 < seqSize b.val) :
    decodeRune (b :: rest) = (runeError, 1) := by
  simp only [decodeRune, List.length_cons]
  rw [if_neg (by omega)]
  by_cases hb : b.val < 0xC2 ∨ 0xF4 < b.val
  · rw [if_pos hb]
  · rw [if_neg hb, if_pos (by omega)]
theorem acceptLo_bounds (n : Nat) : 0x80 ≤ acceptLo n ∧ (n = 0xF0 → acceptLo n = 0x90) := by
  unfold acceptLo
  split_ifs <;> omega

theorem acceptHi_le (n : Nat) : acceptHi n ≤ 0xBF := by
  unfold acceptHi
  split_ifs <;> omega

/-- What a successful decoding of a code point of several bytes looks like: its length
is within the bytes, all its bytes are at least `0x80`, and the line separators are
decoded from their encoding only. -/
theorem decodeRune_valid (b : Byte) (rest : Bytes) (hb : 0x80 ≤ b.val)
    (h : ¬ ((decodeRune (b :: rest)).1 = runeError ∧ (decodeRune (b :: rest)).2 = 1)) :
    2 ≤ (decodeRune (b :: rest)).2 ∧ (decodeRune (b :: rest)).2 ≤ rest.length + 1 ∧
      (∀ x ∈ (b :: rest).take (decodeRune (b :: rest)).2, 0x80 ≤ x.val) ∧
      ((decodeRune (b :: rest)).1 = 0x2028 ∨ (decodeRune (b :: rest)).1 = 0x2029 →
        (b :: rest).take (decodeRune (b :: rest)).2 = utf8Code (decodeRune (b :: rest)).1) := by
  have hlo := acceptLo_bounds b.val
  have hhi := acceptHi_le b.val
  by_cases hbad : b.val < 0xC2 ∨ 0xF4 < b.val
  · exact absurd (by rw [decodeRune_short b rest hb (by omega)]; exact ⟨rfl, rfl⟩) h
  by_cases h2 : b.val < 0xE0
  · -- two bytes
    rcases rest with _ | ⟨b1, t⟩
    · exact absurd (by
        rw [decodeRune_short b [] hb (by simp [seqSize, h2])]; exact ⟨rfl, rfl⟩) h
    · rw [decodeRune_two b b1 t (by omega) h2] at h ⊢
      split_ifs at h ⊢ with hc
      · exact absurd ⟨rfl, rfl⟩ h
      · refine ⟨by simp, by simp, ?_, ?_⟩
        · intro x hx
          simp at hx
          rcases hx with rfl | rfl <;> omega
        · intro hr
          simp only at hr
          omega
  by_cases h3 : b.val < 0xF0
  · rcases rest with _ | ⟨b1, _ | ⟨b2, t⟩⟩
    · exact absurd (by
        rw [decodeRune_short b [] hb (by simp [seqSize, h2, h3])]; exact ⟨rfl, rfl⟩) h
    · exact absurd (by
        rw [decodeRune_short b [b1] hb (by simp [seqSize, h2, h3])]; exact ⟨rfl, rfl⟩) h
    · rw [decodeRune_three b b1 b2 t (by omega) h3] at h ⊢
      split_ifs at h ⊢ with hc1 hc2
      · exact absurd ⟨rfl, rfl⟩ h
      · exact absurd ⟨rfl, rfl⟩ h
      · refine ⟨by simp, by simp, ?_, ?_⟩
        · intro x hx
          simp at hx
          rcases hx with rfl | rfl | rfl <;> omega
        · intro hr
          simp only at hr
          have hu8 : utf8Code 0x2028 = [0xE2, 0x80, 0xA8] := by decide
          have hu9 : utf8Code 0x2029 = [0xE2, 0x80, 0xA9] := by decide
          have e0 : b = 0xE2 := Fin.ext (by show b.val = 0xE2; omega)
          have e1 : b1 = 0x80 := Fin.ext (by show b1.val = 0x80; omega)
          rcases hr with hr | hr
          · have e2 : b2 = 0xA8 := Fin.ext (by show b2.val = 0xA8; omega)
            rw [hr, e0, e1, e2, hu8]; rfl
          · have e2 : b2 = 0xA9 := Fin.ext (by show b2.val = 0xA9; omega)
            rw [hr, e0, e1, e2, hu9]; rfl
  · rcases rest with _ | ⟨b1, _ | ⟨b2, _ | ⟨b3, t⟩⟩⟩
    · exact absurd (by
        rw [decodeRune_short b [] hb (by simp [seqSize, h2, h3])]; exact ⟨rfl, rfl⟩) h
    · exact absurd (by
        rw [decodeRune_short b [b1] hb (by simp [seqSize, h2, h3])]; exact ⟨rfl, rfl⟩) h
    · exact absurd (by
        rw [decodeRune_short b [b1, b2] hb (by simp [seqSize, h2, h3])]; exact ⟨rfl, rfl⟩) h
    · rw [decodeRune_four b b1 b2 b3 t (by omega) (by omega)] at h ⊢
      split_ifs at h ⊢ with hc1 hc2 hc3
      · exact absurd ⟨rfl, rfl⟩ h
      · exact absurd ⟨rfl, rfl⟩ h
      · exact absurd ⟨rfl, rfl⟩ h
      · refine ⟨by simp, by simp, ?_, ?_⟩
        · intro x hx
          simp at hx
          rcases hx with rfl | rfl | rfl | rfl <;> omega
        · intro hr
          simp only at hr
          have := hlo.2
          omega
theorem hexValue_hexDigit (n : Nat) (h : n < 16) :
    hexValue (Char.ofNat (ch (hexDigit n)).val) = some n := by
  interval_cases n <;> decide

theorem utf8Code_val (b : Byte) (hb : b.val < 0x80) : utf8Code b.val = [b] := by
  simp only [utf8Code, if_pos hb]
  congr 1
  exact Fin.ext (by simp [Fin.ofNat])

theorem readBytes_escape (x d : Char) (tail : Bytes) (hx : ch x ≠ ch 'u')
    (hd : unescape (Char.ofNat (ch x).val) = some d) :
    readBytes .plain (ch '\\' :: ch x :: tail) =
      (readBytes .plain tail).map fun r => (ch d :: r.1, r.2) := by
  have h1 : ch '\\' ≠ ch '"' := by decide
  simp [readBytes, h1, hx, hd]

theorem readBytes_hex (a b c d : Nat) (ha : a < 16) (hb : b < 16) (hc : c < 16) (hd : d < 16)
    (tail : Bytes) :
    readBytes .plain
        (ch '\\' :: ch 'u' :: ch (hexDigit a) :: ch (hexDigit b) :: ch (hexDigit c) ::
          ch (hexDigit d) :: tail) =
      (readBytes .plain tail).map fun r =>
        (utf8Code (((a * 16 + b) * 16 + c) * 16 + d) ++ r.1, r.2) := by
  have h1 : ch '\\' ≠ ch '"' := by decide
  simp [readBytes, h1, hexValue_hexDigit _ ha, hexValue_hexDigit _ hb, hexValue_hexDigit _ hc,
    hexValue_hexDigit _ hd]

theorem readBytes_quoteAscii (b : Byte) (hb : b.val < 0x80) (tail : Bytes) :
    readBytes .plain (quoteAscii b ++ tail) =
      (readBytes .plain tail).map fun r => (b :: r.1, r.2) := by
  unfold quoteAscii
  split_ifs with h1 h2 h3 h4 h5 h6 h7
  · rcases h1 with rfl | rfl
    · exact readBytes_escape '"' '"' tail (by decide) (by decide)
    · exact readBytes_escape '\\' '\\' tail (by decide) (by decide)
  · have : b = 8 := Fin.ext h2
    subst this
    exact readBytes_escape 'b' (Char.ofNat 8) tail (by decide) (by decide)
  · have : b = 12 := Fin.ext h3
    subst this
    exact readBytes_escape 'f' (Char.ofNat 12) tail (by decide) (by decide)
  · have : b = 10 := Fin.ext h4
    subst this
    exact readBytes_escape 'n' '\n' tail (by decide) (by decide)
  · have : b = 13 := Fin.ext h5
    subst this
    exact readBytes_escape 'r' '\r' tail (by decide) (by decide)
  · have : b = 9 := Fin.ext h6
    subst this
    exact readBytes_escape 't' '\t' tail (by decide) (by decide)
  · have e : ((0 * 16 + 0) * 16 + b.val / 16) * 16 + b.val % 16 = b.val := by omega
    have h := readBytes_hex 0 0 (b.val / 16) (b.val % 16) (by decide) (by decide) (by omega)
      (Nat.mod_lt _ (by decide)) tail
    rw [e, utf8Code_val b hb] at h
    exact h
  · simp only [not_or] at h1 h7
    simp [readBytes, h1.1, h1.2, h7.1]

theorem readBytes_high (l tail : Bytes) (h : ∀ x ∈ l, 0x80 ≤ x.val) :
    readBytes .plain (l ++ tail) = (readBytes .plain tail).map fun r => (l ++ r.1, r.2) := by
  induction l with
  | nil => simp
  | cons b l ih =>
    have hb : 0x80 ≤ b.val := h b (by simp)
    have h1 : b ≠ ch '"' := by
      intro e; rw [e] at hb; exact absurd hb (by decide)
    have h2 : b ≠ ch '\\' := by
      intro e; rw [e] at hb; exact absurd hb (by decide)
    have h3 : ¬ b.val < 0x20 := by omega
    rw [List.cons_append, readBytes, if_neg h1, if_neg h2, if_neg h3,
      ih (fun x hx => h x (List.mem_cons_of_mem _ hx))]
    cases readBytes .plain tail <;> simp
theorem toValidAux_ascii (b : Byte) (rest : Bytes) (hb : b.val < 0x80) :
    toValidAux 0 (b :: rest) = b :: toValidAux 0 rest := by
  have hd : decodeRune (b :: rest) = (b.val, 1) := by simp [decodeRune, hb]
  have hne : ¬ (b.val = runeError ∧ 1 = 1) := by
    simp only [runeError]; omega
  rw [toValidAux, hd, if_neg hne]
  rfl

/-- Reading back what the encoder wrote gives the bytes with the invalid ones replaced. -/
theorem readBytes_quoteBytesAux (n : Nat) :
    ∀ (l tail : Bytes), l.length ≤ n →
      readBytes .plain (quoteBytesAux 0 l ++ ch '"' :: tail) = some (toValidAux 0 l, tail) := by
  induction n with
  | zero =>
    intro l tail hl
    have : l = [] := List.length_eq_zero.mp (Nat.le_zero.mp hl)
    subst this
    simp [quoteBytesAux, toValidAux, readBytes]
  | succ n ih =>
    intro l tail hl
    rcases l with _ | ⟨b, rest⟩
    · simp [quoteBytesAux, toValidAux, readBytes]
    have hrest : rest.length ≤ n := by simpa using hl
    by_cases hb : b.val < 0x80
    · rw [quoteBytesAux, if_pos hb, List.append_assoc, readBytes_quoteAscii b hb,
        ih rest tail hrest, toValidAux_ascii b rest hb]
      rfl
    by_cases herr : (decodeRune (b :: rest)).1 = runeError ∧ (decodeRune (b :: rest)).2 = 1
    · have h := readBytes_hex 15 15 15 13 (by decide) (by decide) (by decide) (by decide)
        (quoteBytesAux 0 rest ++ ch '"' :: tail)
      rw [quoteBytesAux, if_neg hb, if_pos herr, toValidAux, if_pos herr, List.append_assoc]
      rw [ih rest tail hrest] at h
      exact h
    obtain ⟨h2, hlen, hhigh, hsep⟩ := decodeRune_valid b rest (by omega) herr
    have hdrop : (rest.drop ((decodeRune (b :: rest)).2 - 1)).length ≤ n := by
      rw [List.length_drop]; omega
    have hih := ih _ tail hdrop
    by_cases hs : (decodeRune (b :: rest)).1 = 0x2028 ∨ (decodeRune (b :: rest)).1 = 0x2029
    · have e : ((2 * 16 + 0) * 16 + 2) * 16 + (decodeRune (b :: rest)).1 % 16 =
          (decodeRune (b :: rest)).1 := by omega
      have h := readBytes_hex 2 0 2 ((decodeRune (b :: rest)).1 % 16) (by decide) (by decide)
        (by decide) (Nat.mod_lt _ (by decide))
        (quoteBytesAux 0 (rest.drop ((decodeRune (b :: rest)).2 - 1)) ++ ch '"' :: tail)
      rw [e, hih, ← hsep hs] at h
      rw [quoteBytesAux, if_neg hb, if_neg herr, if_pos hs, toValidAux, if_neg herr,
        quoteBytesAux_skip, toValidAux_skip, List.append_assoc]
      exact h
    · rw [quoteBytesAux, if_neg hb, if_neg herr, if_neg hs, toValidAux, if_neg herr,
        quoteBytesAux_skip, toValidAux_skip, List.append_assoc, readBytes_high _ _ hhigh, hih]
      rfl

theorem readBytes_quoteBytes (s tail : Bytes) :
    readBytes .plain (quoteBytesAux 0 s ++ ch '"' :: tail) = some (toValidUTF8 s, tail) :=
  readBytes_quoteBytesAux s.length s tail (Nat.le_refl _)

theorem toValidAux_of_valid (n : Nat) :
    ∀ l : Bytes, l.length ≤ n → validAux 0 l = true → toValidAux 0 l = l := by
  induction n with
  | zero =>
    intro l hl _
    have : l = [] := List.length_eq_zero.mp (Nat.le_zero.mp hl)
    subst this
    rfl
  | succ n ih =>
    intro l hl hv
    rcases l with _ | ⟨b, rest⟩
    · rfl
    have hrest : rest.length ≤ n := by simpa using hl
    rw [validAux, Bool.and_eq_true, validAux_skip] at hv
    have herr : ¬ ((decodeRune (b :: rest)).1 = runeError ∧ (decodeRune (b :: rest)).2 = 1) := by
      have h1 := hv.1
      simp only [Bool.not_eq_true', decide_eq_false_iff_not] at h1
      exact h1
    have hdrop : (rest.drop ((decodeRune (b :: rest)).2 - 1)).length ≤ n := by
      rw [List.length_drop]; omega
    have hpos : 1 ≤ (decodeRune (b :: rest)).2 := by
      by_cases hb : b.val < 0x80
      · simp [decodeRune, hb]
      · exact Nat.le_of_succ_le (decodeRune_valid b rest (by omega) herr).1
    rw [toValidAux, if_neg herr, toValidAux_skip, ih _ hdrop hv.2]
    have hd : rest.drop ((decodeRune (b :: rest)).2 - 1) =
        (b :: rest).drop (decodeRune (b :: rest)).2 := by
      obtain ⟨k, hk⟩ : ∃ k, (decodeRune (b :: rest)).2 = k + 1 := ⟨_, (Nat.sub_add_cancel hpos).symm⟩
      rw [hk]; simp
    rw [hd, List.take_append_drop]

theorem toValidUTF8_of_valid (s : Bytes) (h : validUTF8 s = true) : toValidUTF8 s = s :=
  toValidAux_of_valid s.length s (Nat.le_refl _) h

theorem readMemberBytes_marshal (key : Bytes) (value : Option Bytes) :
    readMemberBytes (marshalPtrMapBytes key value) =
      some (toValidUTF8 key, value.map toValidUTF8) := by
  have hb : utf8 "\x7b" = [ch '\x7b'] := by decide
  have hc : utf8 "\x7d" = [ch '\x7d'] := by decide
  have hq : utf8 ":" = [ch ':'] := by decide
  have hn : utf8 "null" = [ch 'n', ch 'u', ch 'l', ch 'l'] := by decide
  have hn2 : utf8 "null\x7d" = [ch 'n', ch 'u', ch 'l', ch 'l', ch '\x7d'] := by decide
  have hne : ch '"' ≠ ch 'n' := by decide
  cases value with
  | none =>
    simp [readMemberBytes, marshalPtrMapBytes, marshalPtrBytes, quoteBytes, hb, hc, hq, hn, hn2,
      readBytes_quoteBytes]
  | some v =>
    simp [readMemberBytes, marshalPtrMapBytes, marshalPtrBytes, quoteBytes, hb, hc, hq, hn2,
      readBytes_quoteBytes, hne]

theorem bind_sentBytes {α β : Type} (m : Run α) (f : α → Run β)
    (hf : ∀ a, (f a).sentBytes = []) : (m >>= f).sentBytes = m.sentBytes := by
  show (Run.bind m f).sentBytes = _
  unfold Run.bind
  cases h : m.result with
  | error e => rfl
  | ok a =>
    have := hf a
    simp only [Run.sentBytes] at this ⊢
    simp [this]

theorem makeRequestBytes_sentBytes (raw : RawWorld) (method : String) (url payload : Bytes) :
    (makeRequestBytes raw method url payload).sentBytes =
      if reachesServerBytes raw method url then [payload] else [] := by
  unfold makeRequestBytes reachesServerBytes
  rcases loadCredentials_cases raw.world with ⟨e, h⟩ | ⟨r, h⟩
  · rw [h]; rfl
  · rw [h]
    rcases r with e | ⟨user, pass, err⟩
    · rfl
    · cases err with
      | some e => rfl
      | none =>
        cases hn : raw.newRequest method url with
        | some e => simp [bind, Run.bind, Run.value, Run.sentBytes, hn, pure]
        | none =>
          simp only [bind, Run.bind, Run.value, Run.sentBytes, hn, pure, emit]
          cases raw.roundTrip method url payload
            [("Authorization", "Basic " ++ encodeAuth raw.world user pass),
              ("Content-Type", "application/json")] <;> simp [Event.payloadBytes?]

theorem reassignIssueBytes_sentBytes (raw : RawWorld) (args : List Bytes)
    (arg0 : Bytes) (rest : List Bytes) (h : args = arg0 :: rest) :
    (reassignIssueBytes raw args).sentBytes =
      (makeRequestBytes raw "PUT" (utf8 baseUrl ++ utf8 "/issue/" ++ arg0 ++ utf8 "/assignee")
        (marshalPtrMapBytes (utf8 "name")
          (if args.length = 2 then args.get? 1 else none))).sentBytes := by
  subst h
  have hf : ∀ (assignee : Option Bytes) (a : Nat × Option String),
      (match a with
        | (status, err) =>
          match err with
          | some e => println e
          | none =>
            if status ≠ 204 then println (toString status)
            else
              match assignee with
              | some a =>
                emit (.stdoutBytes
                  (utf8 "Reassigned " ++ raw.toUpper arg0 ++ utf8 " to " ++ a ++ utf8 "\n"))
              | none =>
                emit (.stdoutBytes
                  (utf8 "Unassigned " ++ raw.toUpper arg0 ++ utf8 "\n"))).sentBytes = [] := by
    rintro assignee ⟨status, err⟩
    cases err with
    | some e => rfl
    | none =>
      dsimp only
      split_ifs
      · rfl
      · cases assignee <;> rfl
  rcases rest with _ | ⟨arg1, _ | ⟨arg2, rest⟩⟩
  · simp only [reassignIssueBytes, index, pure_bind_run, List.length_cons, List.length_nil,
      List.get?, Nat.lt_irrefl, if_false]
    exact bind_sentBytes _ _ (hf none)
  · simp only [reassignIssueBytes, index, pure_bind_run, List.length_cons, List.length_nil,
      List.get?, Nat.lt_irrefl, if_false]
    exact bind_sentBytes _ _ (hf (some arg1))
  · have h3 : ¬ ((arg0 :: arg1 :: arg2 :: rest).length = 2) := by simp
    have h1 : ¬ ((arg0 :: arg1 :: arg2 :: rest).length < 1) := by simp
    simp only [reassignIssueBytes, index, pure_bind_run, List.get?, if_neg h1, if_neg h3]
    exact bind_sentBytes _ _ (hf none)

/-- Claim C3 as stated fails. A Go string is a sequence of bytes: called with the ticket
`ABC-1` and the user given by the single byte `0xFF`, which is not valid UTF-8,
`reassignIssue` sends the body with the escape of U+FFFD as the value of `name`; read back,
that value is the three bytes of U+FFFD and not the string `u`. -/
theorem reassignIssueBytes_replaces_invalid_byte :
    (reassignIssueBytes demoRawWorld [utf8 "ABC-1", [0xFF]]).sentBytes =
        [utf8 "\x7b\"name\":\"\\ufffd\"\x7d"] ∧
      readMemberBytes (utf8 "\x7b\"name\":\"\\ufffd\"\x7d") =
        some (utf8 "name", some [0xEF, 0xBF, 0xBD]) ∧
      ([0xEF, 0xBF, 0xBD] : Bytes) ≠ [0xFF] := by
  decide

/-- Claim C3, amended. The only body `reassignIssue` sends is a JSON object with the
single key `name`, and it is sent whenever the request reaches the network. Called with
the ticket alone the value is `null`. Called with a ticket and a user `u` the value is a
string literal that reads back as `u` with every byte that starts no valid UTF-8 encoding
replaced by U+FFFD; for every `u` that is valid UTF-8 it reads back as the string `u`. -/
theorem reassignIssueBytes_payload (raw : RawWorld) (t u : Bytes) :
    (reassignIssueBytes raw [t]).sentBytes =
        (if reachesServerBytes raw "PUT" (utf8 baseUrl ++ utf8 "/issue/" ++ t ++ utf8 "/assignee")
          then [utf8 "\x7b\"name\":null\x7d"] else []) ∧
      (reassignIssueBytes raw [t, u]).sentBytes =
        (if reachesServerBytes raw "PUT" (utf8 baseUrl ++ utf8 "/issue/" ++ t ++ utf8 "/assignee")
          then [utf8 "\x7b\"name\":" ++ quoteBytes u ++ utf8 "\x7d"] else []) ∧
      readMemberBytes (utf8 "\x7b\"name\":null\x7d") = some (utf8 "name", none) ∧
      readMemberBytes (utf8 "\x7b\"name\":" ++ quoteBytes u ++ utf8 "\x7d") =
        some (utf8 "name", some (toValidUTF8 u)) ∧
      (validUTF8 u = true →
        readMemberBytes (utf8 "\x7b\"name\":" ++ quoteBytes u ++ utf8 "\x7d") =
          some (utf8 "name", some u)) := by
  have e1 : marshalPtrMapBytes (utf8 "name") none = utf8 "\x7b\"name\":null\x7d" := by decide
  have e2 : marshalPtrMapBytes (utf8 "name") (some u) =
      utf8 "\x7b\"name\":" ++ quoteBytes u ++ utf8 "\x7d" := by
    have : utf8 "\x7b" ++ quoteBytes (utf8 "name") ++ utf8 ":" = utf8 "\x7b\"name\":" := by
      decide
    simp only [marshalPtrMapBytes, marshalPtrBytes, this]
  have hk : toValidUTF8 (utf8 "name") = utf8 "name" := by decide
  have r1 := readMemberBytes_marshal (utf8 "name") none
  have r2 := readMemberBytes_marshal (utf8 "name") (some u)
  rw [e1, hk] at r1
  rw [e2, hk] at r2
  refine ⟨?_, ?_, r1, r2, ?_⟩
  · rw [reassignIssueBytes_sentBytes raw [t] t [] rfl, makeRequestBytes_sentBytes]
    simp [e1]
  · rw [reassignIssueBytes_sentBytes raw [t, u] t [u] rfl, makeRequestBytes_sentBytes]
    simp [e2]
  · intro hv
    rw [r2, Option.map_some', toValidUTF8_of_valid u hv]

/-- The amended C3 in the sample world for the user `bob`: the text is valid UTF-8, the
request goes out, and its body is the object with the member `name` set to `bob`. -/
theorem reassignIssueBytes_payload_witness :
    validUTF8 (utf8 "bob") = true ∧
      reachesServerBytes demoRawWorld "PUT"
        (utf8 baseUrl ++ utf8 "/issue/" ++ utf8 "ABC-1" ++ utf8 "/assignee") = true ∧
      (reassignIssueBytes demoRawWorld [utf8 "ABC-1", utf8 "bob"]).sentBytes =
        [utf8 "\x7b\"name\":\"bob\"\x7d"] ∧
      readMemberBytes (utf8 "\x7b\"name\":\"bob\"\x7d") = some (utf8 "name", some (utf8 "bob")) := by
  have h := reassignIssueBytes_payload demoRawWorld (utf8 "ABC-1") (utf8 "bob")
  have hr : reachesServerBytes demoRawWorld "PUT"
      (utf8 baseUrl ++ utf8 "/issue/" ++ utf8 "ABC-1" ++ utf8 "/assignee") = true := by decide
  have hb : utf8 "\x7b\"name\":" ++ quoteBytes (utf8 "bob") ++ utf8 "\x7d" =
      utf8 "\x7b\"name\":\"bob\"\x7d" := by decide
  rw [if_pos hr, hb] at h
  exact ⟨by decide, hr, h.2.1, h.2.2.2.2 (by decide)⟩

/-! ### The text encoder is the byte encoder on text -/

theorem char_valid (c : Char) :
    c.toNat < 0xD800 ∨ (0xDFFF < c.toNat ∧ c.toNat < 0x110000) := c.valid

theorem decodeRune_utf8Code (c : Char) (rest : Bytes) (hc : 0x80 ≤ c.toNat) :
    decodeRune (utf8Code c.toNat ++ rest) = (c.toNat, (utf8Code c.toNat).length) := by
  have hv := char_valid c
  generalize c.toNat = n at hc hv
  unfold utf8Code
  rw [if_neg (by omega)]
  split_ifs with h2 h3
  · have e0 : (Fin.ofNat (0xC0 + n / 64) : Byte).val = 0xC0 + n / 64 := by
      simp [Fin.ofNat]; omega
    have e1 : (Fin.ofNat (0x80 + n % 64) : Byte).val = 0x80 + n % 64 := by
      simp [Fin.ofNat]; omega
    rw [List.cons_append, List.cons_append, decodeRune_two _ _ _ (by omega) (by omega), e0, e1,
      if_neg (by omega)]
    simp only [List.length_cons, List.length_nil, Prod.mk.injEq, and_true]
    omega
  · have e0 : (Fin.ofNat (0xE0 + n / 4096) : Byte).val = 0xE0 + n / 4096 := by
      simp [Fin.ofNat]; omega
    have e1 : (Fin.ofNat (0x80 + n / 64 % 64) : Byte).val = 0x80 + n / 64 % 64 := by
      simp [Fin.ofNat]; omega
    have e2 : (Fin.ofNat (0x80 + n % 64) : Byte).val = 0x80 + n % 64 := by
      simp [Fin.ofNat]; omega
    have hlo : acceptLo (0xE0 + n / 4096) ≤ 0x80 + n / 64 % 64 := by
      unfold acceptLo; split_ifs <;> omega
    have hhi : 0x80 + n / 64 % 64 ≤ acceptHi (0xE0 + n / 4096) := by
      unfold acceptHi; split_ifs <;> omega
    rw [List.cons_append, List.cons_append, List.cons_append,
      decodeRune_three _ _ _ _ (by omega) (by omega), e0, e1, e2, if_neg (by omega),
      if_neg (by omega)]
    simp only [List.length_cons, List.length_nil, Prod.mk.injEq, and_true]
    omega
  · have e0 : (Fin.ofNat (0xF0 + n / 262144) : Byte).val = 0xF0 + n / 262144 := by
      simp [Fin.ofNat]; omega
    have e1 : (Fin.ofNat (0x80 + n / 4096 % 64) : Byte).val = 0x80 + n / 4096 % 64 := by
      simp [Fin.ofNat]; omega
    have e2 : (Fin.ofNat (0x80 + n / 64 % 64) : Byte).val = 0x80 + n / 64 % 64 := by
      simp [Fin.ofNat]; omega
    have e3 : (Fin.ofNat (0x80 + n % 64) : Byte).val = 0x80 + n % 64 := by
      simp [Fin.ofNat]; omega
    have hlo : acceptLo (0xF0 + n / 262144) ≤ 0x80 + n / 4096 % 64 := by
      unfold acceptLo; split_ifs <;> omega
    have hhi : 0x80 + n / 4096 % 64 ≤ acceptHi (0xF0 + n / 262144) := by
      unfold acceptHi; split_ifs <;> omega
    rw [List.cons_append, List.cons_append, List.cons_append, List.cons_append,
      decodeRune_four _ _ _ _ _ (by omega) (by omega), e0, e1, e2, e3, if_neg (by omega),
      if_neg (by omega), if_neg (by omega)]
    simp only [List.length_cons, List.length_nil, Prod.mk.injEq, and_true]
    omega

/-- The bytes of a text given by its characters. -/
theorem utf8_mk_cons (c : Char) (cs : List Char) :
    utf8 ⟨c :: cs⟩ = utf8Code c.toNat ++ utf8 ⟨cs⟩ := by
  simp [utf8]

theorem utf8_mk_append (xs ys : List Char) : utf8 ⟨xs ++ ys⟩ = utf8 ⟨xs⟩ ++ utf8 ⟨ys⟩ := by
  simp [utf8]

theorem quoteAscii_eq_quoteChar :
    ∀ n : Fin 128, quoteAscii (Fin.ofNat n.val) = utf8 ⟨quoteChar (Char.ofNat n.val)⟩ := by
  decide

theorem utf8Code_shape (n : Nat) (h : 0x80 ≤ n) (hv : n < 0x110000) :
    ∃ b bs, utf8Code n = b :: bs ∧ 0x80 ≤ b.val ∧ 1 ≤ bs.length := by
  unfold utf8Code
  rw [if_neg (by omega)]
  split_ifs
  · exact ⟨_, _, rfl, by simp [Fin.ofNat]; omega, by simp⟩
  · exact ⟨_, _, rfl, by simp [Fin.ofNat]; omega, by simp⟩
  · exact ⟨_, _, rfl, by simp [Fin.ofNat]; omega, by simp⟩

theorem quoteChar_high (c : Char) (hc : 0x80 ≤ c.toNat) :
    quoteChar c =
      if c.toNat = 0x2028 ∨ c.toNat = 0x2029 then
        ['\\', 'u', '2', '0', '2', hexDigit (c.toNat % 16)]
      else [c] := by
  have hne : ∀ x : Char, x.toNat < 0x80 → c ≠ x := by
    intro x hx e
    rw [e] at hc
    omega
  have h1 : ¬ (c = '"' ∨ c = '\\') := by
    rintro (e | e)
    · exact hne _ (by decide) e
    · exact hne _ (by decide) e
  have h2 : ¬ (c.toNat < 0x20 ∨ c = '<' ∨ c = '>' ∨ c = '&') := by
    rintro (e | e | e | e)
    · omega
    · exact hne _ (by decide) e
    · exact hne _ (by decide) e
    · exact hne _ (by decide) e
  unfold quoteChar
  rw [if_neg h1, if_neg (by omega), if_neg (by omega), if_neg (hne _ (by decide)),
    if_neg (hne _ (by decide)), if_neg (hne _ (by decide)), if_neg h2]

theorem quoteBytesAux_utf8Code (c : Char) (rest : Bytes) :
    quoteBytesAux 0 (utf8Code c.toNat ++ rest) = utf8 ⟨quoteChar c⟩ ++ quoteBytesAux 0 rest := by
  by_cases hc : c.toNat < 0x80
  · have hq := quoteAscii_eq_quoteChar ⟨c.toNat, hc⟩
    simp only [Char.ofNat_toNat] at hq
    have hb : (Fin.ofNat c.toNat : Byte).val < 0x80 := by
      simp [Fin.ofNat]; omega
    simp only [utf8Code, if_pos hc, List.cons_append, List.nil_append]
    rw [quoteBytesAux, if_pos hb, hq]
  · have hv := char_valid c
    have hd := decodeRune_utf8Code c rest (by omega)
    obtain ⟨b, bs, hbs, hb80, hlen⟩ := utf8Code_shape c.toNat (by omega) (by omega)
    have hu : utf8 ⟨[c]⟩ = b :: bs := by simp [utf8, hbs]
    rw [hbs] at hd
    rw [hbs, quoteChar_high c (by omega)]
    simp only [List.cons_append, List.length_cons] at hd ⊢
    have hk : bs.length + 1 - 1 = bs.length := rfl
    have hdrop : quoteBytesAux bs.length (bs ++ rest) = quoteBytesAux 0 rest := by
      rw [quoteBytesAux_skip]; simp
    have htake : List.take (bs.length + 1) (b :: (bs ++ rest)) = b :: bs := by
      simp
    rw [quoteBytesAux, if_neg (by omega), hd]
    simp only
    rw [if_neg (by omega), hk, hdrop, htake]
    by_cases hs : c.toNat = 0x2028 ∨ c.toNat = 0x2029
    · rw [if_pos hs, if_pos hs]
      rcases hs with e | e <;> rw [e] <;> rfl
    · rw [if_neg hs, if_neg hs, hu, List.cons_append]

/-- On text, the string literal written by the byte encoder is the encoding of the one
written by the text encoder `quote`. -/
theorem quoteBytes_utf8 (s : String) : quoteBytes (utf8 s) = utf8 (quote s) := by
  have h : ∀ cs : List Char,
      quoteBytesAux 0 (utf8 ⟨cs⟩) = utf8 ⟨(cs.map quoteChar).flatten⟩ := by
    intro cs
    induction cs with
    | nil => rfl
    | cons c cs ih =>
      rw [utf8_mk_cons, quoteBytesAux_utf8Code, ih, List.map_cons, List.flatten_cons,
        utf8_mk_append]
  have hq : utf8 ⟨['"']⟩ = [ch '"'] := by decide
  have hq2 : utf8Code '"'.toNat = [ch '"'] := by decide
  show ch '"' :: (quoteBytesAux 0 (utf8 ⟨s.data⟩) ++ [ch '"']) = _
  rw [h, quote, utf8_mk_append, utf8_mk_cons, hq, hq2]
  rfl

/-- On text, the body marshalled from bytes is the encoding of the body marshalled from
text: `marshalPtrMap` is `marshalPtrMapBytes` restricted to valid UTF-8. -/
theorem marshalPtrMapBytes_utf8 (key : String) (value : Option String) :
    marshalPtrMapBytes (utf8 key) (value.map utf8) = utf8 (marshalPtrMap key value) := by
  have happ : ∀ a b : String, utf8 (a ++ b) = utf8 a ++ utf8 b := by
    intro a b
    simp [utf8, String.data_append]
  cases value with
  | none => simp [marshalPtrMapBytes, marshalPtrMap, marshalPtrBytes, marshalPtr, happ,
      quoteBytes_utf8]
  | some v => simp [marshalPtrMapBytes, marshalPtrMap, marshalPtrBytes, marshalPtr, happ,
      quoteBytes_utf8]

theorem utf8_append (a b : String) : utf8 (a ++ b) = utf8 a ++ utf8 b := by
  simp [utf8, String.data_append]

/-- On arguments that are text, the bodies `reassignIssueBytes` sends are the encodings of
the bodies `reassignIssue` sends, in a world where the two requests are let through alike. -/
theorem reassignIssueBytes_on_text (raw : RawWorld) (useColor : Bool) (t : String)
    (rest : List String)
    (hreach : reachesServerBytes raw "PUT" (utf8 (baseUrl ++ "/issue/" ++ t ++ "/assignee")) =
      reachesServer raw.world "PUT" (baseUrl ++ "/issue/" ++ t ++ "/assignee")) :
    (reassignIssueBytes raw ((t :: rest).map utf8)).sentBytes =
      (reassignIssue raw.world useColor (t :: rest)).sentBodies.map utf8 := by
  have hurl : utf8 baseUrl ++ utf8 "/issue/" ++ utf8 t ++ utf8 "/assignee" =
      utf8 (baseUrl ++ "/issue/" ++ t ++ "/assignee") := by
    simp [utf8_append]
  have hval : (if ((t :: rest).map utf8).length = 2 then ((t :: rest).map utf8).get? 1
        else none) =
      (if (t :: rest).length = 2 then (t :: rest).get? 1 else none).map utf8 := by
    rw [List.length_map]
    split_ifs
    · simp [List.get?_eq_getElem?, List.getElem?_map]
    · rfl
  rw [reassignIssueBytes_sentBytes raw _ (utf8 t) (rest.map utf8) (by simp),
    makeRequestBytes_sentBytes, reassignIssue_text_payload, hurl, hreach, hval,
    marshalPtrMapBytes_utf8]
  split_ifs <;> rfl

end Jira
